import Mathlib

/-!
Verification of the mouse-api repository's natural-language specification
against a shallow Lean embedding of its Python source.

Components embedded here:
* `ActionLang`  — `_parse_mouse_actions` from `mcp_client/mouse_integration.py`
* `MouseClient` — the augmented client init / `send_prompt` / `send_enhanced_prompt`
* `OcrDedup`    — duplicate filtering in `process_image_with_tesseract` (`mouse_api.py`)
* `TextMatch`   — `group_nearby_text`, `merge_text_group`, `is_subsequence`,
                  `find_text_positions_tesseract` (`mouse_api.py`)
* `OcrApi`      — `EasyOCRClient.wait_for_completion` (`ocr_api_client.py`)
* `ImageMatch`  — `find_image_multi_scale` (`mouse_api.py`)
* `Health`      — `/health` route and the OCR startup probe (`mouse_api.py`)
* `McpSaver`    — `_save_base64_image_to_png` / `_with_saved_image` (`mcp_mouse/server.py`)
* `TypeText`    — the `/text/type` route (`mouse_api.py`)

Machine conventions: Python `int` is `ℤ` (or `ℕ` where the source value is a
count/index), Python `float` is `ℚ` (all float values arising here come from
decimal literals and exact rational arithmetic), strings are ASCII-modelled
(`str.isdigit`, `str.lower`, `str.strip` are embedded at ASCII precision).
External effects (HTTP, OCR engines, OpenCV correlation, the clipboard) are
oracle parameters; the Python control flow around them is embedded verbatim.
-/

namespace ActionLang

/-- A parsed parameter value: `int` / `float` / `bool` / `str`, the four types
`_parse_mouse_actions` can produce. -/
inductive PVal where
  | int (n : ℤ)
  | float (q : ℚ)
  | bool (b : Bool)
  | str (s : String)
deriving DecidableEq, Repr

/-- An Action Invocation: `{'action': ..., 'params': {...}}`.  The params dict
is an insertion-ordered association list (Python dict semantics). -/
structure MouseAction where
  action : String
  params : List (String × PVal)
deriving DecidableEq, Repr

/-- Python `\s` (ASCII range): space, tab, newline, carriage return,
vertical tab, form feed. -/
def pyIsSpace (c : Char) : Bool :=
  c = ' ' || c = '\t' || c = '\n' || c = '\r' || c = Char.ofNat 11 || c = Char.ofNat 12

/-- The two quote characters stripped by `.strip('"\'')` in the source. -/
def isQuoteChar (c : Char) : Bool :=
  c = Char.ofNat 34 || c = Char.ofNat 39

/-- Python `str.strip()` on a character list: drop leading and trailing
whitespace. -/
def pyStrip (l : List Char) : List Char :=
  ((l.dropWhile pyIsSpace).reverse.dropWhile pyIsSpace).reverse

/-- Python `str.strip('"\'')`: drop any run of quote characters from both
ends. -/
def pyStripQuotes (l : List Char) : List Char :=
  ((l.dropWhile isQuoteChar).reverse.dropWhile isQuoteChar).reverse

/-- Python `str.lower()` (ASCII). -/
def pyLower (l : List Char) : List Char := l.map Char.toLower

/-- Python `str.isdigit()` at ASCII precision: nonempty and all decimal
digits. -/
def pyIsDigit (l : List Char) : Bool := !l.isEmpty && l.all Char.isDigit

/-- Numeric value of a digit string (Python `int(...)` on an all-digit
string). -/
def digitsToNat (l : List Char) : ℕ :=
  l.foldl (fun acc c => acc * 10 + (c.toNat - 48)) 0

/-- Python `float(...)` on a string made of digits and exactly one period:
integer part plus fractional part.  (Values reaching the float branch of the
coercion consist of digits and periods only.) -/
def floatVal (l : List Char) : ℚ :=
  let ip := l.takeWhile (· ≠ '.')
  let fp := (l.dropWhile (· ≠ '.')).drop 1
  (digitsToNat ip : ℚ) + (digitsToNat fp : ℚ) / (10 : ℚ) ^ fp.length

/-- Value coercion of `_parse_mouse_actions`, in source order:
`int` if `value.isdigit()`; else `float(value)` if
`value.replace('.', '').isdigit()` — which raises `ValueError` (here `none`)
when the value holds two or more periods; else `bool` if the lowercased value
is `true`/`false`; else the literal string. -/
def coerceValue (v : List Char) : Option PVal :=
  if pyIsDigit v then some (.int (digitsToNat v))
  else if pyIsDigit (v.filter (fun c => c ≠ '.')) then
    -- `float(value)`: succeeds exactly when the digits-and-periods string has
    -- a single period (no-period strings were caught by the branch above)
    if v.count '.' = 1 then some (.float (floatVal v)) else none
  else if pyLower v = "true".toList || pyLower v = "false".toList then
    some (.bool (pyLower v = "true".toList))
  else some (.str (String.mk v))

/-- Split a raw text at the first `]`, returning the segment before it and the
remainder after it (the `[^]]*` / `]` structure of the directive regex). -/
def segUpToRBracket : List Char → Option (List Char × List Char)
  | [] => none
  | c :: cs =>
    if c = ']' then some ([], cs)
    else match segUpToRBracket cs with
      | some (seg, rest) => some (c :: seg, rest)
      | none => none

theorem segUpToRBracket_rest_lt {l seg rest : List Char}
    (h : segUpToRBracket l = some (seg, rest)) : rest.length < l.length := by
  induction l generalizing seg rest with
  | nil => simp [segUpToRBracket] at h
  | cons c cs ih =>
    by_cases hc : c = ']'
    · simp [segUpToRBracket, hc] at h
      simp [← h.2]
    · simp only [segUpToRBracket, if_neg hc] at h
      cases hrec : segUpToRBracket cs with
      | none => rw [hrec] at h; simp at h
      | some p =>
        rw [hrec] at h
        cases p with
        | mk s r =>
          simp at h
          have := ih hrec
          simp [← h.2]
          omega

/-- The captured group of one regex match `\[MOUSE_ACTION:\s*([^]]+)\]`:
the greedy `\s*` eats the maximal whitespace prefix that still leaves the
one-or-more group nonempty (so an all-whitespace segment captures its final
character). -/
def groupOfSeg (seg : List Char) : List Char :=
  let t := seg.dropWhile pyIsSpace
  if t.isEmpty then
    match seg.getLast? with
    | some c => [c]
    | none => []
  else t

/-- `re.findall(r'\[MOUSE_ACTION:\s*([^]]+)\]', response)`: scan left to
right; at each occurrence of the literal prefix followed (before the next `]`)
by a nonempty segment, capture the group and continue after the `]`;
otherwise advance one character.  Structural recursion on a fuel bound (the
scan consumes at least one character per step, so `l.length + 1` fuel always
suffices; see `findDirectivesFuel_stable`). -/
def findDirectivesFuel : ℕ → List Char → List (List Char)
  | 0, _ => []
  | fuel + 1, l =>
    match l with
    | [] => []
    | c :: cs =>
      if "[MOUSE_ACTION:".toList.isPrefixOf (c :: cs) then
        match segUpToRBracket ((c :: cs).drop 14) with
        | some (seg, rest) =>
          if seg.isEmpty then findDirectivesFuel fuel cs
          else groupOfSeg seg :: findDirectivesFuel fuel rest
        | none => findDirectivesFuel fuel cs
      else findDirectivesFuel fuel cs

def findDirectives (l : List Char) : List (List Char) :=
  findDirectivesFuel (l.length + 1) l

/-- Any fuel beyond the input length computes the same directive list: the
fuel device does not cut the scan short. -/
theorem findDirectivesFuel_stable :
    ∀ (f₁ f₂ : ℕ) (l : List Char), l.length < f₁ → l.length < f₂ →
      findDirectivesFuel f₁ l = findDirectivesFuel f₂ l := by
  intro f₁
  induction f₁ with
  | zero => intro f₂ l h₁ h₂; omega
  | succ n ih =>
    intro f₂ l h₁ h₂
    match f₂, l with
    | m + 1, [] => rfl
    | m + 1, c :: cs =>
      simp only [findDirectivesFuel]
      have hcs₁ : cs.length < n := by simp at h₁; omega
      have hcs₂ : cs.length < m := by simp at h₂; omega
      by_cases hp : "[MOUSE_ACTION:".toList.isPrefixOf (c :: cs)
      · simp only [hp, if_true]
        cases hseg : segUpToRBracket ((c :: cs).drop 14) with
        | none => exact ih m cs hcs₁ hcs₂
        | some p =>
          rcases p with ⟨seg, rest⟩
          have hrest : rest.length + 14 < cs.length + 1 := by
            have := segUpToRBracket_rest_lt hseg
            simp at this
            omega
          by_cases he : seg.isEmpty
          · simp only [he, if_true]
            exact ih m cs hcs₁ hcs₂
          · simp only [he, if_false]
            rw [ih m rest (by omega) (by omega)]
            simp
      · simp only [hp, if_false]
        exact ih m cs hcs₁ hcs₂

/-- The comma-splitting loop of `_parse_mouse_actions`: split on commas at
parenthesis depth zero; a comma-delimited piece is pushed stripped (possibly
empty), the final piece only when nonempty after stripping. -/
def splitParamsGo (depth : ℤ) (current : List Char) (acc : List (List Char)) :
    List Char → List (List Char)
  | [] => if (pyStrip current).isEmpty then acc else acc ++ [pyStrip current]
  | c :: cs =>
    if c = ',' ∧ depth = 0 then
      splitParamsGo 0 [] (acc ++ [pyStrip current]) cs
    else
      let d := if c = '(' then depth + 1 else if c = ')' then depth - 1 else depth
      splitParamsGo d (current ++ [c]) acc cs

def splitParams (l : List Char) : List (List Char) := splitParamsGo 0 [] [] l

/-- Positional-parameter naming: `x`/`y`/`duration` for `mouse_move`,
`button`/`x`/`y` for `mouse_click` (`none` = the source's `continue`, dropping
positions past 2), `param_<i>` for every other action. -/
def positionalKey (actionName : String) (i : ℕ) : Option String :=
  if actionName = "mouse_move" then
    if i = 0 then some "x" else if i = 1 then some "y"
    else if i = 2 then some "duration" else none
  else if actionName = "mouse_click" then
    if i = 0 then some "button" else if i = 1 then some "x"
    else if i = 2 then some "y" else none
  else some ("param_" ++ Nat.repr i)

/-- Python dict assignment `params[key] = value`: overwrite in place when the
key exists, else append. -/
def dictInsert (d : List (String × PVal)) (k : String) (v : PVal) :
    List (String × PVal) :=
  if d.any (fun p => p.1 = k) then
    d.map (fun p => if p.1 = k then (k, v) else p)
  else d ++ [(k, v)]

/-- Process one argument (index `i`): `key=value` arguments are split at the
first `=`; bare arguments are named positionally.  Outer `none` models a
`ValueError` escaping the coercion (aborting the directive); `some none`
models the source's `continue`. -/
def parseParam (actionName : String) (i : ℕ) (param : List Char) :
    Option (Option (String × PVal)) :=
  if param.contains '=' then
    let key := pyStrip (param.takeWhile (· ≠ '='))
    let value := pyStripQuotes (pyStrip ((param.dropWhile (· ≠ '=')).drop 1))
    match coerceValue value with
    | some pv => some (some (String.mk key, pv))
    | none => none
  else
    let value := pyStripQuotes (pyStrip param)
    match positionalKey actionName i with
    | some k =>
      match coerceValue value with
      | some pv => some (some (k, pv))
      | none => none
    | none => some none

/-- The parameter-building loop over the split argument list. -/
def buildParams (actionName : String) :
    ℕ → List (String × PVal) → List (List Char) → Option (List (String × PVal))
  | _, d, [] => some d
  | i, d, p :: ps =>
    match parseParam actionName i p with
    | none => none
    | some none => buildParams actionName (i + 1) d ps
    | some (some (k, v)) => buildParams actionName (i + 1) (dictInsert d k v) ps

/-- Parse one captured directive body.  `.ok none`: the body lacks `(`/a
trailing `)` and is silently skipped; `.error`: an exception inside the
per-directive `try` (logged and skipped by the caller); `.ok (some a)`: a
parsed Action Invocation. -/
def parseDirectiveRaw (m : List Char) : Except String (Option MouseAction) :=
  if m.contains '(' ∧ m.getLast? = some ')' then
    let actionName := String.mk (pyStrip (m.takeWhile (· ≠ '(')))
    let paramsStr := ((m.dropWhile (· ≠ '(')).drop 1).dropLast
    let pparts :=
      if (pyStrip paramsStr).isEmpty then [] else splitParams paramsStr
    match buildParams actionName 0 [] pparts with
    | some d => .ok (some ⟨actionName, d⟩)
    | none => .error "could not convert string to float"
  else .ok none

/-- `_parse_mouse_actions`: find every directive, parse each inside a
`try` that logs and skips failures, and return the parsed actions in order. -/
def parseMouseActions (response : String) : List MouseAction :=
  (findDirectives response.toList).filterMap fun m =>
    match parseDirectiveRaw m with
    | .ok r => r
    | .error _ => none

/-- Auxiliary evaluation: the float literal `1.0` denotes `1`. -/
theorem floatVal_one_point_zero : floatVal "1.0".toList = 1 := by
  have h : floatVal "1.0".toList = ((1 : ℕ) : ℚ) + ((0 : ℕ) : ℚ) / 10 ^ (1 : ℕ) := rfl
  rw [h]; norm_num

end ActionLang

open ActionLang in
/-- C1 (amended).  Action-directive extraction finds each
`[MOUSE_ACTION: name(args)]` substring, takes the (stripped) text before the
first `(` as the action name, splits arguments on depth-zero commas, maps bare
positional arguments to `x`/`y`/`duration` (`mouse_move`), `button`/`x`/`y`
(`mouse_click`) or `param_<i>` (other actions), and coerces each value in
order: int if all digits; float if the value minus its periods is all digits
*and* the value holds at most one period (two or more periods abort the
directive, which is skipped); bool for `true`/`false`; else the quote-stripped
literal string.  In particular `[MOUSE_ACTION: mouse_move(100, 200, 1.0)]`
parses to `mouse_move` with `x=100, y=200, duration=1.0`. -/
theorem claim_C1_directive_parsing :
    (parseMouseActions "[MOUSE_ACTION: mouse_move(100, 200, 1.0)]"
      = [⟨"mouse_move", [("x", .int 100), ("y", .int 200), ("duration", .float 1)]⟩])
    ∧ (parseMouseActions "[MOUSE_ACTION: mouse_click(left, 5, 6)]"
      = [⟨"mouse_click", [("button", .str "left"), ("x", .int 5), ("y", .int 6)]⟩])
    ∧ (parseMouseActions "[MOUSE_ACTION: foo(g(1,2), 3)]"
      = [⟨"foo", [("param_0", .str "g(1,2)"), ("param_1", .int 3)]⟩])
    ∧ (∀ m a, parseDirectiveRaw m = .ok (some a) →
        a.action = String.mk (pyStrip (m.takeWhile (· ≠ '('))))
    ∧ (∀ v, pyIsDigit v = true → coerceValue v = some (.int (digitsToNat v)))
    ∧ (∀ v, pyIsDigit (v.filter (fun c => c ≠ '.')) = true → v.count '.' = 1 →
        coerceValue v = some (.float (floatVal v)))
    ∧ (∀ v, pyIsDigit (v.filter (fun c => c ≠ '.')) = true → 2 ≤ v.count '.' →
        coerceValue v = none)
    ∧ (∀ v, pyIsDigit v = false → pyIsDigit (v.filter (fun c => c ≠ '.')) = false →
        (pyLower v = "true".toList ∨ pyLower v = "false".toList) →
        coerceValue v = some (.bool (pyLower v = "true".toList)))
    ∧ (∀ v, pyIsDigit v = false → pyIsDigit (v.filter (fun c => c ≠ '.')) = false →
        pyLower v ≠ "true".toList → pyLower v ≠ "false".toList →
        coerceValue v = some (.str (String.mk v))) := by
  refine ⟨?_, by rfl, by rfl, ?_, ?_, ?_, ?_, ?_, ?_⟩
  · have h : parseMouseActions "[MOUSE_ACTION: mouse_move(100, 200, 1.0)]"
        = [⟨"mouse_move", [("x", .int 100), ("y", .int 200),
            ("duration", .float (floatVal "1.0".toList))]⟩] := by rfl
    rw [h, floatVal_one_point_zero]
  · intro m a h
    unfold parseDirectiveRaw at h
    split at h
    · simp only [] at h
      split at h
      · simp at h
        rw [← h]
        simp
      · simp at h
    · simp at h
  · intro v h
    simp [coerceValue, h]
  · intro v hf hc
    have hmem : '.' ∈ v := by
      have : 0 < v.count '.' := by omega
      exact List.count_pos_iff.mp this
    have hd : pyIsDigit v = false := by
      simp only [pyIsDigit, Bool.and_eq_false_iff]
      right
      simp only [List.all_eq_false]
      exact ⟨'.', hmem, by decide⟩
    have hf' : pyIsDigit (List.filter (fun c => !decide (c = '.')) v) = true := by
      simpa using hf
    simp [coerceValue, hd, hf', hc]
  · intro v hf hc
    have hmem : '.' ∈ v := by
      have : 0 < v.count '.' := by omega
      exact List.count_pos_iff.mp this
    have hd : pyIsDigit v = false := by
      simp only [pyIsDigit, Bool.and_eq_false_iff]
      right
      simp only [List.all_eq_false]
      exact ⟨'.', hmem, by decide⟩
    have hf' : pyIsDigit (List.filter (fun c => !decide (c = '.')) v) = true := by
      simpa using hf
    have hc1 : v.count '.' ≠ 1 := by omega
    simp [coerceValue, hd, hf', hc1]
  · intro v h1 h2 h3
    have h2' : pyIsDigit (List.filter (fun c => !decide (c = '.')) v) = false := by
      simpa using h2
    rcases h3 with h3 | h3 <;> simp [coerceValue, h1, h2', h3]
  · intro v h1 h2 h3 h4
    have h2' : pyIsDigit (List.filter (fun c => !decide (c = '.')) v) = false := by
      simpa using h2
    simp [coerceValue, h1, h2']
    exact ⟨by simpa using h3, by simpa using h4⟩

open ActionLang in
/-- C1 counterexample.  The value `1.2.3` passes the claim's float test (its
characters minus periods are all digits), yet the code's `float("1.2.3")`
raises and the whole directive is skipped: extraction of
`[MOUSE_ACTION: f(1.2.3)]` returns no Action Invocation at all, where the
claim as stated requires one with a float parameter. -/
theorem claim_C1_directive_parsing_counterexample :
    parseMouseActions "[MOUSE_ACTION: f(1.2.3)]" = []
    ∧ pyIsDigit ("1.2.3".toList.filter (fun c => c ≠ '.')) = true := ⟨by rfl, by rfl⟩

open ActionLang in
/-- C1 witness: the proved parsing facts instantiated at concrete inputs. -/
theorem claim_C1_directive_parsing_witness :
    coerceValue "42".toList = some (.int (digitsToNat "42".toList))
    ∧ (MouseAction.mk "f" [("param_0", .int 1)]).action
        = String.mk (pyStrip ("f(1)".toList.takeWhile (· ≠ '('))) := by
  constructor
  · exact claim_C1_directive_parsing.2.2.2.2.1 "42".toList (by decide)
  · exact claim_C1_directive_parsing.2.2.2.1 "f(1)".toList
      ⟨"f", [("param_0", .int 1)]⟩ (by rfl)

open ActionLang in
/-- C2.  A malformed directive (e.g. `[MOUSE_ACTION: mouse_move(]`) never
raises out of `_parse_mouse_actions`: it contributes no Action Invocation,
and well-formed directives elsewhere in the same reply are still parsed
(every directive whose body parses successfully appears in the output
regardless of its malformed siblings). -/
theorem claim_C2_malformed_directive_skipped :
    (parseMouseActions "[MOUSE_ACTION: mouse_move(]" = [])
    ∧ (parseMouseActions
        "x [MOUSE_ACTION: mouse_move(] y [MOUSE_ACTION: mouse_move(100, 200)] z"
      = [⟨"mouse_move", [("x", .int 100), ("y", .int 200)]⟩])
    ∧ (∀ t m a, m ∈ findDirectives t.toList → parseDirectiveRaw m = .ok (some a) →
        a ∈ parseMouseActions t) := by
  refine ⟨by rfl, by rfl, ?_⟩
  intro t m a hm hp
  unfold parseMouseActions
  rw [List.mem_filterMap]
  exact ⟨m, hm, by rw [hp]⟩

open ActionLang in
/-- C2 witness: the membership fact instantiated on the mixed
malformed/well-formed reply text. -/
theorem claim_C2_malformed_directive_skipped_witness :
    (⟨"mouse_move", [("x", .int 100), ("y", .int 200)]⟩ : MouseAction)
      ∈ parseMouseActions
        "x [MOUSE_ACTION: mouse_move(] y [MOUSE_ACTION: mouse_move(100, 200)] z" :=
  claim_C2_malformed_directive_skipped.2.2
    "x [MOUSE_ACTION: mouse_move(] y [MOUSE_ACTION: mouse_move(100, 200)] z"
    "mouse_move(100, 200)".toList
    ⟨"mouse_move", [("x", .int 100), ("y", .int 200)]⟩ (by decide) (by rfl)

namespace MouseClient

/-- JSON values crossing the embedded HTTP boundaries. -/
inductive JVal where
  | str (s : String)
  | int (n : ℤ)
  | rat (q : ℚ)
  | bool (b : Bool)
  | arr (l : List JVal)
  | obj (l : List (String × JVal))

/-- Python dict assignment on a JSON object body. -/
def dictSet (d : List (String × JVal)) (k : String) (v : JVal) :
    List (String × JVal) :=
  if d.any (fun p => p.1 = k) then
    d.map (fun p => if p.1 = k then (k, v) else p)
  else d ++ [(k, v)]

/-- The HTTP environment of one client session.  `none` responses are
transport errors (a raised `aiohttp` exception); `some (status, body)` is a
received response. -/
structure HttpEnv where
  /-- `GET {ollama_host}/api/tags`: status and the parsed model-name list. -/
  tagsResp : Option (ℕ × List String)
  /-- `GET {mouse_api_host}/health`: response status. -/
  healthStatus : Option ℕ
  /-- `POST {ollama_host}/api/generate` for a given prompt: status and JSON
  body. -/
  generateResp : String → Option (ℕ × List (String × JVal))
  /-- `_execute_single_action`: the automation backend's outcome for one
  Action Invocation. -/
  execAction : ActionLang.MouseAction → Except String JVal

/-- The mutable client attributes the embedded methods read and write. -/
structure ClientState where
  model : String
  mouse_tools_enabled : Bool

/-- The model-substitution step: keep the configured model when it is among
the reported ones, else use the first reported model (if any). -/
def pickModel (configured : String) (available : List String) : String :=
  if configured ∈ available then configured
  else match available with
    | [] => configured
    | m :: _ => m

/-- `OllamaMCPClient.initialize` (`mcp_client/client.py`): query `/api/tags`;
on a 200, substitute the first reported model when the configured one is
missing and return `{status, model, available_models}`; otherwise raise. -/
def baseInit (env : HttpEnv) (st : ClientState) :
    Except String (List (String × JVal) × ClientState) :=
  match env.tagsResp with
  | none => .error "Initialization failed"
  | some (status, available) =>
    if status = 200 then
      .ok ([("status", .str "initialized"),
            ("model", .str (pickModel st.model available)),
            ("available_models", .arr (available.map .str))],
           { st with model := pickModel st.model available })
    else .error ("Failed to connect to Ollama: " ++ toString status)

/-- `MouseCapableOllamaClient.initialize`
(`mcp_client/mouse_integration.py`): run the base initialize, then probe the
automation backend's `/health`; a 200 sets `mouse_api_available` true, any
other status or a transport error sets it false and disables
`mouse_tools_enabled` — never raising from the probe. -/
def augmentedInit (env : HttpEnv) (st : ClientState) :
    Except String (List (String × JVal) × ClientState) :=
  match baseInit env st with
  | .error e => .error e
  | .ok (result, st₁) =>
    match env.healthStatus with
    | some status =>
      if status = 200 then
        .ok (dictSet result "mouse_api_available" (.bool true), st₁)
      else
        .ok (dictSet result "mouse_api_available" (.bool false),
             { st₁ with mouse_tools_enabled := false })
    | none =>
      .ok (dictSet result "mouse_api_available" (.bool false),
           { st₁ with mouse_tools_enabled := false })

/-- `OllamaMCPClient.send_prompt` (non-streaming): post to `/api/generate`;
on a 200 return the JSON body minus any `context` field, else raise. -/
def send_prompt (env : HttpEnv) (st : ClientState) (prompt : String) :
    Except String (List (String × JVal)) :=
  match env.generateResp prompt with
  | none => .error ("Failed to send prompt: " ++ prompt)
  | some (status, body) =>
    if status = 200 then .ok (body.filter (fun p => p.1 ≠ "context"))
    else .error ("Ollama request failed: " ++ toString status)

/-- The fixed instructional block `_add_mouse_context` prepends (the triple
quoted literal of `mouse_integration.py`, reproduced verbatim). -/
def mouseContextBlock : String :=
  "\nあなたはマウスと画面制御機能を利用できます。回答する際は、以下の形式でマウス操作を含めることができます：\n\n[MOUSE_ACTION: action_name(parameters)]\n\n利用可能なアクション：\n\nマウス制御:\n- mouse_position() - 現在のマウス位置を取得\n- mouse_move(x, y, duration=optional) - マウスを指定座標に移動\n- mouse_click(button=\"left\"|\"right\"|\"middle\", x=optional, y=optional) - マウスクリック\n- mouse_scroll(direction=\"vertical\"|\"horizontal\", clicks=3, x=optional, y=optional) - スクロール\n- mouse_drag(from_x, from_y, to_x, to_y, duration=optional, button=\"left\") - ドラッグ操作\n\n画面キャプチャ:\n- screen_capture() - 全画面スクリーンショット\n- screen_capture_at_cursor(width, height) - カーソル周辺のスクリーンショット\n- screen_capture_with_ocr(text=optional, show_all=true, min_confidence=0.8) - OCR付きスクリーンショット\n\nテキスト操作:\n- text_search(text=\"検索文字\", case_sensitive=false, min_confidence=0.8, region=\"top_half\") - 画面内テキスト検索\n- text_find_and_click(text=\"クリック対象\", case_sensitive=false, button=\"left\") - テキストを検索してクリック\n- text_type(text=\"入力文字\", x=optional, y=optional, mode=\"type\", press_enter=false, paste_delay=0.1) - テキスト入力\n- text_ocr(min_confidence=0.8, debug=false) - 画面全体のテキスト抽出\n\n画像操作:\n- image_search(image_path=\"/path/to/image.png\", threshold=0.8, multi_scale=true) - 画像検索\n- image_find_and_click(image_path=\"/path/to/image.png\", threshold=0.8, button=\"left\", offset_x=0, offset_y=0) - 画像検索してクリック\n\nシステム:\n- health() - マウスAPIヘルスチェック\n\n回答例：\nユーザーのリクエストを処理します。まず現在のマウス位置を確認します。\n\n[MOUSE_ACTION: mouse_position()]\n\n現在のマウス位置が確認できました。次に画面の状況を確認しましょう。\n\n[MOUSE_ACTION: screen_capture()]\n\n画面のテキストをすべて抽出してみます。\n\n[MOUSE_ACTION: text_ocr()]\n\nIMPORTANT: 日本語で自然な会話形式で回答してください。マウス操作の実行結果は別途提供されるので、操作の説明と合わせて親しみやすく応答してください。\n\nユーザーの質問: "

def addMouseContext (prompt : String) : String := mouseContextBlock ++ prompt

/-- A parameter value as it appears in the executed-action report. -/
def pvalToJ : ActionLang.PVal → JVal
  | .int n => .int n
  | .float q => .rat q
  | .bool b => .bool b
  | .str s => .str s

/-- `_execute_mouse_actions`: run each parsed action in order, reporting
`{action, params, result, success:true}` or `{action, params, error,
success:false}` per action. -/
def executeActions (env : HttpEnv) (actions : List ActionLang.MouseAction) :
    List JVal :=
  actions.map fun a =>
    match env.execAction a with
    | .ok r =>
      .obj [("action", .str a.action),
            ("params", .obj (a.params.map (fun p => (p.1, pvalToJ p.2)))),
            ("result", r), ("success", .bool true)]
    | .error e =>
      .obj [("action", .str a.action),
            ("params", .obj (a.params.map (fun p => (p.1, pvalToJ p.2)))),
            ("error", .str e), ("success", .bool false)]

/-- The reply text scanned for directives: `response.get('response', '')`. -/
def responseText (body : List (String × JVal)) : String :=
  match body.lookup "response" with
  | some (.str s) => s
  | _ => ""

/-- `MouseCapableOllamaClient.send_enhanced_prompt`: prepend the instruction
block when automation is enabled and requested, send the prompt, then (again
only when enabled and requested) parse directives out of the reply and attach
the executed-action reports. -/
def send_enhanced_prompt (env : HttpEnv) (st : ClientState) (prompt : String)
    (enable_mouse_actions : Bool := true) :
    Except String (List (String × JVal)) :=
  let enhanced :=
    if enable_mouse_actions && st.mouse_tools_enabled then addMouseContext prompt
    else prompt
  match send_prompt env st enhanced with
  | .error e => .error e
  | .ok response =>
    if enable_mouse_actions && st.mouse_tools_enabled then
      let actions := ActionLang.parseMouseActions (responseText response)
      if actions.isEmpty then .ok response
      else .ok (dictSet response "mouse_actions_executed"
                  (.arr (executeActions env actions)))
    else .ok response

end MouseClient

open MouseClient in
/-- C3.  When the automation health probe fails (non-200 status or transport
error) but the base LLM initialize succeeds, the augmented initialize still
returns the base result, extended with `mouse_api_available:false`; no
exception propagates; automation is disabled for the rest of the session
(so `send_enhanced_prompt` equals `send_prompt` exactly, for either value of
`enable_mouse_actions`); and a subsequent `send_prompt` against a healthy
generation endpoint still succeeds. -/
theorem claim_C3_health_probe_failure_graceful :
    ∀ (env : HttpEnv) (st : ClientState) (ms : List String),
      env.tagsResp = some (200, ms) →
      env.healthStatus ≠ some 200 →
      baseInit env st
        = .ok ([("status", .str "initialized"),
                ("model", .str (pickModel st.model ms)),
                ("available_models", .arr (ms.map .str))],
               ⟨pickModel st.model ms, st.mouse_tools_enabled⟩)
      ∧ augmentedInit env st
          = .ok (dictSet [("status", .str "initialized"),
                  ("model", .str (pickModel st.model ms)),
                  ("available_models", .arr (ms.map .str))]
                 "mouse_api_available" (.bool false),
                 ⟨pickModel st.model ms, false⟩)
      ∧ (∀ prompt enable,
          send_enhanced_prompt env ⟨pickModel st.model ms, false⟩ prompt enable
            = send_prompt env ⟨pickModel st.model ms, false⟩ prompt)
      ∧ (∀ prompt body, env.generateResp prompt = some (200, body) →
          send_prompt env ⟨pickModel st.model ms, false⟩ prompt
            = .ok (body.filter (fun p => p.1 ≠ "context"))) := by
  intro env st ms htags hhealth
  have hb : baseInit env st
      = .ok ([("status", .str "initialized"),
              ("model", .str (pickModel st.model ms)),
              ("available_models", .arr (ms.map .str))],
             ⟨pickModel st.model ms, st.mouse_tools_enabled⟩) := by
    unfold baseInit
    rw [htags]
    rfl
  refine ⟨hb, ?_, ?_, ?_⟩
  · unfold augmentedInit
    rw [hb]
    cases hh : env.healthStatus with
    | none => rfl
    | some s =>
      have hs : ¬ s = 200 := by
        intro h
        exact hhealth (by rw [hh, h])
      simp [hs]
  · intro prompt enable
    unfold send_enhanced_prompt
    simp only [Bool.and_false]
    cases hsp : send_prompt env ⟨pickModel st.model ms, false⟩ prompt with
    | error e => simp [hsp]
    | ok r => simp [hsp]
  · intro prompt body hgen
    unfold send_prompt
    rw [hgen]
    rfl

open MouseClient in
/-- The concrete session environment of the C3 witness: tags report 200 with
one model, the health probe raises a transport error, generation returns
200. -/
def c3Env : HttpEnv :=
  ⟨some (200, ["llama2"]), none, fun _ => some (200, [("response", .str "ok")]),
   fun _ => .error "unreachable"⟩

open MouseClient in
/-- C3 witness: the theorem instantiated at the concrete session. -/
theorem claim_C3_health_probe_failure_graceful_witness :
    augmentedInit c3Env ⟨"gpt-oss:20b", true⟩
      = .ok (dictSet [("status", .str "initialized"),
              ("model", .str (pickModel "gpt-oss:20b" ["llama2"])),
              ("available_models", .arr (["llama2"].map .str))]
             "mouse_api_available" (.bool false),
             ⟨pickModel "gpt-oss:20b" ["llama2"], false⟩)
    ∧ (∀ prompt enable,
        send_enhanced_prompt c3Env ⟨pickModel "gpt-oss:20b" ["llama2"], false⟩
            prompt enable
          = send_prompt c3Env ⟨pickModel "gpt-oss:20b" ["llama2"], false⟩ prompt) :=
  ⟨(claim_C3_health_probe_failure_graceful c3Env ⟨"gpt-oss:20b", true⟩ ["llama2"]
      rfl (by simp [c3Env])).2.1,
   (claim_C3_health_probe_failure_graceful c3Env ⟨"gpt-oss:20b", true⟩ ["llama2"]
      rfl (by simp [c3Env])).2.2.1⟩

namespace OcrDedup

/-- A bounding box `{x, y, width, height}` of an OCR word record. -/
structure BBox where
  x : ℤ
  y : ℤ
  width : ℤ
  height : ℤ
deriving DecidableEq, Repr

/-- A local-engine OCR word record as built by
`process_image_with_tesseract`: text, precomputed center, box and
confidence. -/
structure OcrRec where
  text : String
  x : ℤ
  y : ℤ
  bbox : BBox
  confidence : ℚ
deriving DecidableEq, Repr

/-- Python contiguous-substring test (`needle in hay`). -/
def isSubstr (needle : List Char) : List Char → Bool
  | [] => needle.isEmpty
  | c :: t => needle.isPrefixOf (c :: t) || isSubstr needle t

/-- `str.lower()` of a record text (ASCII). -/
def lowerStr (s : String) : List Char := s.toList.map Char.toLower

/-- `bbox['y'] + bbox['height'] // 2` (Python floor division). -/
def yCenter (b : BBox) : ℤ := b.y + b.height.fdiv 2

/-- `width * height`. -/
def area (b : BBox) : ℤ := b.width * b.height

/-- The overlap area of two boxes:
`max(0, min(right) - max(left)) * max(0, min(bottom) - max(top))`. -/
def overlapArea (b₁ b₂ : BBox) : ℤ :=
  (max 0 (min (b₁.x + b₁.width) (b₂.x + b₂.width) - max b₁.x b₂.x)) *
  (max 0 (min (b₁.y + b₁.height) (b₂.y + b₂.height) - max b₁.y b₂.y))

/-- The duplicate test of `process_image_with_tesseract` between the record
under consideration (`result`) and an already-kept record (`existing`):
significant overlap (more than half of the smaller area) with y-centers
within 5, or one text contained in the other (case-insensitively) with
centers strictly within 30 horizontally and 15 vertically. -/
def isDuplicatePair (result existing : OcrRec) : Bool :=
  let is_significant_overlap :=
    decide ((overlapArea result.bbox existing.bbox : ℚ)
      > 0.5 * ((min (area result.bbox) (area existing.bbox) : ℤ) : ℚ))
  let is_same_y_center :=
    decide ((yCenter result.bbox - yCenter existing.bbox).natAbs ≤ 5)
  let is_similar_text :=
    isSubstr (lowerStr result.text) (lowerStr existing.text) ||
    isSubstr (lowerStr existing.text) (lowerStr result.text)
  (is_significant_overlap && is_same_y_center) ||
  (is_similar_text && decide ((result.x - existing.x).natAbs < 30)
    && decide ((result.y - existing.y).natAbs < 15))

/-- The first already-kept record the current one duplicates (the inner
`for existing in filtered_results` loop with its `break`). -/
def firstDup (filtered : List OcrRec) (result : OcrRec) : Option OcrRec :=
  filtered.find? (fun existing => isDuplicatePair result existing)

/-- The duplicate-filtering loop: keep a record unless it duplicates a kept
one; when it does and has strictly higher confidence, remove the kept one
(`list.remove`: first equal element) and append the new record. -/
def filterDupGo (filtered : List OcrRec) : List OcrRec → List OcrRec
  | [] => filtered
  | result :: rest =>
    match firstDup filtered result with
    | some existing =>
      if result.confidence > existing.confidence then
        filterDupGo (filtered.erase existing ++ [result]) rest
      else filterDupGo filtered rest
    | none => filterDupGo (filtered ++ [result]) rest

def filterDuplicates (results : List OcrRec) : List OcrRec :=
  filterDupGo [] results

theorem overlapArea_comm (b₁ b₂ : BBox) : overlapArea b₁ b₂ = overlapArea b₂ b₁ := by
  simp [overlapArea, min_comm, max_comm]

end OcrDedup

open OcrDedup in
/-- C4.  Two local-engine OCR word records that (a) overlap by more than 50%
of the smaller box's area with y-centers differing by at most 5 pixels, or
(b) have case-insensitively mutually-contained texts with centers within 30
horizontal and 15 vertical pixels, are treated as duplicates by the filtering
pass: of the pair, exactly the higher-confidence record survives. -/
theorem claim_C4_duplicate_filtering :
    ∀ r₁ r₂ : OcrRec,
      (((overlapArea r₁.bbox r₂.bbox : ℚ)
          > 0.5 * ((min (area r₁.bbox) (area r₂.bbox) : ℤ) : ℚ)
        ∧ (yCenter r₁.bbox - yCenter r₂.bbox).natAbs ≤ 5)
       ∨ (isSubstr (lowerStr r₁.text) (lowerStr r₂.text) = true
        ∧ isSubstr (lowerStr r₂.text) (lowerStr r₁.text) = true
        ∧ (r₁.x - r₂.x).natAbs < 30 ∧ (r₁.y - r₂.y).natAbs < 15)) →
      r₁.confidence ≠ r₂.confidence →
      filterDuplicates [r₁, r₂]
        = [if r₂.confidence > r₁.confidence then r₂ else r₁] := by
  intro r₁ r₂ hdup hconf
  have hpair : isDuplicatePair r₂ r₁ = true := by
    unfold isDuplicatePair
    rcases hdup with ⟨hov, hyc⟩ | ⟨hs₁, hs₂, hx, hy⟩
    · apply Bool.or_eq_true_iff.mpr
      left
      rw [overlapArea_comm, min_comm] at hov
      have hyc' : (yCenter r₂.bbox - yCenter r₁.bbox).natAbs ≤ 5 := by omega
      simp [hyc']
      push_cast at hov
      exact hov
    · apply Bool.or_eq_true_iff.mpr
      right
      have hx' : (r₂.x - r₁.x).natAbs < 30 := by omega
      have hy' : (r₂.y - r₁.y).natAbs < 15 := by omega
      simp [hs₁, hs₂, hx', hy']
  show filterDupGo [] [r₁, r₂] = _
  have h1 : firstDup [] r₁ = none := rfl
  have h2 : firstDup [r₁] r₂ = some r₁ := by
    simp [firstDup, List.find?, hpair]
  have step1 : filterDupGo [] [r₁, r₂] = filterDupGo [r₁] [r₂] := by
    conv_lhs => rw [filterDupGo]
    rw [h1]
    rfl
  have step2 : filterDupGo [r₁] [r₂]
      = if r₂.confidence > r₁.confidence then
          filterDupGo ([r₁].erase r₁ ++ [r₂]) []
        else filterDupGo [r₁] [] := by
    conv_lhs => rw [filterDupGo]
    rw [h2]
  rw [step1, step2]
  by_cases hgt : r₂.confidence > r₁.confidence
  · rw [if_pos hgt, if_pos hgt]
    simp [filterDupGo, List.erase_cons_head]
  · rw [if_neg hgt, if_neg hgt]
    rfl

open OcrDedup in
/-- The two records of the C4 exemplar: boxes overlapping by exactly 60% of
the smaller area, y-centers 3 pixels apart, confidences 80 and 90. -/
def c4RecLow : OcrRec := ⟨"alpha", 3, 5, ⟨0, 0, 7, 10⟩, 80⟩

def c4RecHigh : OcrDedup.OcrRec := ⟨"beta", 11, 8, ⟨1, 3, 20, 10⟩, 90⟩

open OcrDedup in
/-- C4 witness: the exemplar pair (60% overlap of the smaller area, y-centers
3 apart) is reduced to the higher-confidence record. -/
theorem claim_C4_duplicate_filtering_witness :
    filterDuplicates [c4RecLow, c4RecHigh]
      = [if c4RecHigh.confidence > c4RecLow.confidence then c4RecHigh else c4RecLow] :=
  claim_C4_duplicate_filtering c4RecLow c4RecHigh
    (Or.inl (by norm_num [overlapArea, area, yCenter, c4RecLow, c4RecHigh, Int.fdiv]))
    (by norm_num [c4RecLow, c4RecHigh])

namespace PyOps

/-- Stable insertion: place `a` after every element `b` with `le b a`
(Python's stable `sorted`/`list.sort` keeps equal keys in encounter
order). -/
def insertAfterEq (le : α → α → Bool) (a : α) : List α → List α
  | [] => [a]
  | b :: bs => if le b a then b :: insertAfterEq le a bs else a :: b :: bs

/-- Python `sorted(l, key=...)`: a stable sort by a total preorder. -/
def pySorted (le : α → α → Bool) (l : List α) : List α :=
  l.foldl (fun acc a => insertAfterEq le a acc) []

theorem mem_insertAfterEq (le : α → α → Bool) (a x : α) :
    ∀ l : List α, x ∈ insertAfterEq le a l ↔ x = a ∨ x ∈ l := by
  intro l
  induction l with
  | nil => simp [insertAfterEq]
  | cons b bs ih =>
    rw [insertAfterEq]
    by_cases h : le b a
    · rw [if_pos h, List.mem_cons, ih, List.mem_cons]
      tauto
    · rw [if_neg h, List.mem_cons, List.mem_cons]

theorem pairwise_insertAfterEq (le : α → α → Bool)
    (htrans : ∀ x y z, le x y = true → le y z = true → le x z = true)
    (htot : ∀ x y, le x y = true ∨ le y x = true) (a : α) :
    ∀ l : List α, l.Pairwise (fun x y => le x y = true) →
      (insertAfterEq le a l).Pairwise (fun x y => le x y = true) := by
  intro l
  induction l with
  | nil => simp [insertAfterEq]
  | cons b bs ih =>
    intro hp
    rw [List.pairwise_cons] at hp
    by_cases h : le b a
    · rw [insertAfterEq, if_pos h, List.pairwise_cons]
      refine ⟨?_, ih hp.2⟩
      intro y hy
      rcases (mem_insertAfterEq le a y bs).mp hy with rfl | hy'
      · exact h
      · exact hp.1 y hy'
    · rw [insertAfterEq, if_neg h, List.pairwise_cons]
      have hab : le a b = true := by
        rcases htot a b with h' | h'
        · exact h'
        · exact absurd h' h
      refine ⟨?_, List.pairwise_cons.mpr hp⟩
      intro y hy
      rcases hy with _ | hy'
      · exact hab
      · exact htrans a b y hab (hp.1 y (by assumption))

theorem pairwise_pySorted (le : α → α → Bool)
    (htrans : ∀ x y z, le x y = true → le y z = true → le x z = true)
    (htot : ∀ x y, le x y = true ∨ le y x = true) (l : List α) :
    (pySorted le l).Pairwise (fun x y => le x y = true) := by
  suffices h : ∀ acc, acc.Pairwise (fun x y => le x y = true) →
      (l.foldl (fun acc a => insertAfterEq le a acc) acc).Pairwise
        (fun x y => le x y = true) by
    exact h [] (by simp)
  induction l with
  | nil => intro acc hacc; simpa using hacc
  | cons b bs ih =>
    intro acc hacc
    exact ih _ (pairwise_insertAfterEq le htrans htot b acc hacc)

theorem mem_pySorted (le : α → α → Bool) (x : α) (l : List α) :
    x ∈ pySorted le l ↔ x ∈ l := by
  suffices h : ∀ acc, x ∈ l.foldl (fun acc a => insertAfterEq le a acc) acc
      ↔ x ∈ acc ∨ x ∈ l by
    have := h []
    simpa [pySorted] using this
  induction l with
  | nil => intro acc; simp
  | cons b bs ih =>
    intro acc
    rw [List.foldl_cons, ih]
    rw [mem_insertAfterEq]
    rw [List.mem_cons]
    tauto

end PyOps

namespace TextMatch

/-- An OCR text record as carried through grouping and matching in
`mouse_api.py` (optional fields are keys the source adds only on some
records). -/
structure TRec where
  text : String
  x : ℤ
  y : ℤ
  bbox : OcrDedup.BBox
  confidence : ℚ
  matched_text : Option String := none
  match_type : Option String := none
  grouped_count : Option ℕ := none
deriving DecidableEq, Repr

/-- Python `str.strip()` on a string. -/
def pyStripStr (s : String) : String := String.mk (ActionLang.pyStrip s.toList)

/-- Python `str.lower()` on a string (ASCII). -/
def pyLowerStr (s : String) : String := String.mk (s.toList.map Char.toLower)

/-- Python `int(...)` on a float: truncation toward zero. -/
def toIntTrunc (q : ℚ) : ℤ := if 0 ≤ q then ⌊q⌋ else ⌈q⌉

/-- The text-combining loop of `merge_text_group`: walk the records sorted by
left edge; with a gap over 5 pixels append the next (stripped) text; within 5
pixels, a nearly-coincident left edge (within 10) keeps only the longer text,
otherwise the text is appended. -/
def combineTexts (acc : List String) (prev : Option OcrDedup.BBox) :
    List TRec → List String
  | [] => acc
  | r :: rest =>
    let ct := pyStripStr r.text
    let cb := r.bbox
    match prev with
    | none => combineTexts (acc ++ [ct]) (some cb) rest
    | some pb =>
      if cb.x ≤ pb.x + pb.width + 5 then
        if cb.x ≤ pb.x + 10 then
          if (acc.getLastD "").length < ct.length then
            combineTexts (acc.dropLast ++ [ct]) (some cb) rest
          else combineTexts acc (some cb) rest
        else combineTexts (acc ++ [ct]) (some cb) rest
      else combineTexts (acc ++ [ct]) (some cb) rest

def listMin (l : List ℤ) (d : ℤ) : ℤ := l.foldl min d

def listMax (l : List ℤ) (d : ℤ) : ℤ := l.foldl max d

/-- `merge_text_group`: merge a group of records into one line-level record —
texts combined left-to-right, bounding union box, confidence×size-weighted
center, area-weighted confidence, `grouped_count` set to the group size.
(`none` for an empty group, as the source returns `None`; a division by a
zero weight, impossible for real OCR boxes, yields 0 here where Python would
raise.) -/
def merge_text_group (text_group : List TRec) : Option TRec :=
  match text_group with
  | [] => none
  | [r] => some r
  | r :: rs =>
    let g := r :: rs
    let sorted_group := PyOps.pySorted (fun a b => decide (a.bbox.x ≤ b.bbox.x)) g
    let combined := combineTexts [] none sorted_group
    let final_text := String.intercalate " " (combined.filter (fun t => ¬ t.isEmpty))
    let min_x := listMin (g.map (fun t => t.bbox.x)) r.bbox.x
    let min_y := listMin (g.map (fun t => t.bbox.y)) r.bbox.y
    let max_x := listMax (g.map (fun t => t.bbox.x + t.bbox.width)) (r.bbox.x + r.bbox.width)
    let max_y := listMax (g.map (fun t => t.bbox.y + t.bbox.height)) (r.bbox.y + r.bbox.height)
    let total_weight : ℚ := (g.map (fun t => t.confidence * (t.bbox.width : ℚ))).sum
    let center_x :=
      if 0 < total_weight then
        toIntTrunc ((g.map (fun t => (t.x : ℚ) * t.confidence * (t.bbox.width : ℚ))).sum
          / total_weight)
      else (min_x + max_x).fdiv 2
    let center_y :=
      if 0 < total_weight then
        toIntTrunc ((g.map (fun t => (t.y : ℚ) * t.confidence * (t.bbox.height : ℚ))).sum
          / (g.map (fun t => t.confidence * (t.bbox.height : ℚ))).sum)
      else (min_y + max_y).fdiv 2
    let total_area := (g.map (fun t => t.bbox.width * t.bbox.height)).sum
    let avg_confidence :=
      if 0 < total_area then
        (g.map (fun t => t.confidence * (t.bbox.width : ℚ) * (t.bbox.height : ℚ))).sum
          / (total_area : ℚ)
      else (g.map (fun t => t.confidence)).sum / (g.length : ℚ)
    some ⟨final_text, center_x, center_y,
          ⟨min_x, min_y, max_x - min_x, max_y - min_y⟩,
          avg_confidence, none, none, some g.length⟩

/-- The grouping condition of `group_nearby_text` between the record under
consideration and the last record of the current group. -/
def shouldGroup (y_tol x_tol : ℤ) (result last : TRec) : Bool :=
  let cb := result.bbox
  let lb := last.bbox
  let curr_y_center := cb.y + cb.height.fdiv 2
  let last_y_center := lb.y + lb.height.fdiv 2
  let y_diff := |cb.y - lb.y|
  let y_center_diff := |curr_y_center - last_y_center|
  let last_right := lb.x + lb.width
  let curr_left := cb.x
  let curr_right := cb.x + cb.width
  let last_left := lb.x
  let x_overlap := max 0 (min curr_right last_right - max curr_left last_left)
  let has_x_overlap := decide (0 < x_overlap)
  let x_gap := if last_right < curr_left then curr_left - last_right else 0
  (decide (y_center_diff ≤ y_tol.fdiv 2) && has_x_overlap)
  || (decide (y_diff ≤ y_tol) && decide (0 ≤ x_gap) && decide (x_gap ≤ x_tol))
  || (decide (y_center_diff ≤ y_tol) && decide ((x_gap : ℚ) ≤ (x_tol : ℚ) * 1.5))

/-- Close the current group: merge it when it has more than one member, else
keep its single record as-is. -/
def flushGroup (grouped current : List TRec) : List TRec :=
  if 1 < current.length then
    match merge_text_group current with
    | some m => grouped ++ [m]
    | none => grouped
  else grouped ++ current

/-- The grouping loop of `group_nearby_text` over the records sorted by
`(bbox.y, bbox.x)`. -/
def groupGo (y_tol x_tol : ℤ) (grouped current : List TRec) :
    List TRec → List TRec
  | [] => if current.isEmpty then grouped else flushGroup grouped current
  | r :: rest =>
    match current with
    | [] => groupGo y_tol x_tol grouped [r] rest
    | c :: cs =>
      if shouldGroup y_tol x_tol r ((c :: cs).getLast (List.cons_ne_nil c cs)) then
        groupGo y_tol x_tol grouped (c :: cs ++ [r]) rest
      else
        groupGo y_tol x_tol (flushGroup grouped (c :: cs)) [r] rest

/-- `group_nearby_text(ocr_results, y_tolerance, x_tolerance)`. -/
def group_nearby_text (ocr_results : List TRec) (y_tol : ℤ := 10)
    (x_tol : ℤ := 50) : List TRec :=
  if ocr_results.isEmpty then ocr_results
  else
    groupGo y_tol x_tol [] []
      (PyOps.pySorted
        (fun a b => decide (a.bbox.y < b.bbox.y)
          || (decide (a.bbox.y = b.bbox.y) && decide (a.bbox.x ≤ b.bbox.x)))
        ocr_results)

/-- The index-walking loop of `is_subsequence`: advance the target index on
each character of the text that matches the target at that index. -/
def isSubseqLoop (target : List Char) : List Char → ℕ → ℕ
  | [], idx => idx
  | c :: cs, idx =>
    if idx < target.length ∧ target.get? idx = some c then
      isSubseqLoop target cs (idx + 1)
    else isSubseqLoop target cs idx

/-- `is_subsequence(target, text)`: the walk consumed the whole target. -/
def is_subsequence (target text : String) : Bool :=
  decide (isSubseqLoop target.toList text.toList 0 = target.toList.length)

/-- The (possibly case-normalized) needle: `search_text`. -/
def searchOf (target : String) (cs : Bool) : String :=
  if cs then target else pyLowerStr target

/-- The (possibly case-normalized) candidate: `found_text`. -/
def foundOf (cs : Bool) (r : TRec) : String :=
  if cs then r.text else pyLowerStr r.text

/-- `result.copy()` plus the `matched_text`/`match_type` assignments. -/
def tagMatch (target tag : String) (r : TRec) : TRec :=
  { r with matched_text := some target, match_type := some tag }

/-- Matching step 1 of `find_text_positions_tesseract`: direct substring
matches over the grouped records, tagged `direct`. -/
def directStep (all : List TRec) (target : String) (cs : Bool) : List TRec :=
  ((group_nearby_text all 10 50).filter
    (fun r => OcrDedup.isSubstr (searchOf target cs).toList (foundOf cs r).toList)).map
    (tagMatch target "direct")

/-- The records sharing at least one character with the target
(`partial_matches`). -/
def partialMatches (all : List TRec) (target : String) (cs : Bool) : List TRec :=
  (group_nearby_text all 10 50).filter
    (fun r => (searchOf target cs).toList.any (fun ch => (foundOf cs r).toList.contains ch)
      || (foundOf cs r).toList.any (fun ch => (searchOf target cs).toList.contains ch))

/-- Matching step 2: re-group the partial matches with looser tolerances
(15, 80) and take substring matches, tagged `grouped`. -/
def groupedStep (all : List TRec) (target : String) (cs : Bool) : List TRec :=
  if (partialMatches all target cs).isEmpty then []
  else
    ((group_nearby_text (partialMatches all target cs) 15 80).filter
      (fun r => OcrDedup.isSubstr (searchOf target cs).toList (foundOf cs r).toList)).map
      (tagMatch target "grouped")

/-- Matching step 3: order-preserving subsequence matches over the grouped
records, tagged `subsequence`. -/
def subseqStep (all : List TRec) (target : String) (cs : Bool) : List TRec :=
  ((group_nearby_text all 10 50).filter
    (fun r => is_subsequence (searchOf target cs) (foundOf cs r))).map
    (tagMatch target "subsequence")

/-- `find_text_positions_tesseract`: step 1, then step 2 only if step 1 found
nothing, then step 3 only if both found nothing. -/
def find_text_positions_tesseract (all : List TRec) (target : String)
    (cs : Bool := false) : List TRec :=
  if all.isEmpty then []
  else if ¬ (directStep all target cs).isEmpty then directStep all target cs
  else if ¬ (groupedStep all target cs).isEmpty then groupedStep all target cs
  else subseqStep all target cs

/-- The clean structural recursion equivalent to the index walk. -/
def subseqB : List Char → List Char → Bool
  | [], _ => true
  | _ :: _, [] => false
  | a :: ts, c :: cs => if c = a then subseqB ts cs else subseqB (a :: ts) cs

theorem isSubseqLoop_of_le (target : List Char) :
    ∀ (text : List Char) (idx : ℕ), target.length ≤ idx →
      isSubseqLoop target text idx = idx := by
  intro text
  induction text with
  | nil => intro idx h; rfl
  | cons c cs ih =>
    intro idx h
    rw [isSubseqLoop, if_neg]
    · exact ih idx h
    · intro hcon
      omega

theorem subseqB_iff_sublist :
    ∀ (s t : List Char), subseqB t s = true ↔ List.Sublist t s := by
  intro s
  induction s with
  | nil =>
    intro t
    match t with
    | [] => simp [subseqB]
    | a :: ts => simp [subseqB]
  | cons c cs ih =>
    intro t
    match t with
    | [] => simp [subseqB, List.nil_sublist]
    | a :: ts =>
      rw [subseqB]
      by_cases hca : c = a
      · subst hca
        rw [if_pos rfl, List.cons_sublist_cons]
        exact ih ts
      · rw [if_neg hca]
        rw [ih (a :: ts)]
        constructor
        · exact fun h => List.sublist_cons_of_sublist c h
        · intro h
          rcases List.sublist_cons_iff.mp h with h' | ⟨r, hr, hrs⟩
          · exact h'
          · injection hr with h1 h2
            exact absurd h1.symm hca

theorem isSubseqLoop_eq_iff (target : List Char) :
    ∀ (text : List Char) (idx : ℕ), idx ≤ target.length →
      (isSubseqLoop target text idx = target.length
        ↔ subseqB (target.drop idx) text = true) := by
  intro text
  induction text with
  | nil =>
    intro idx h
    rw [isSubseqLoop]
    constructor
    · intro he
      rw [he]
      simp [subseqB, List.drop_length]
    · intro hs
      have : target.drop idx = [] := by
        cases hd : target.drop idx with
        | nil => rfl
        | cons a ts => rw [hd] at hs; simp [subseqB] at hs
      have := List.drop_eq_nil_iff.mp this
      omega
  | cons c cs ih =>
    intro idx h
    by_cases hidx : idx < target.length
    · have hget : target.get? idx = some target[idx] := by
        rw [List.get?_eq_getElem?, List.getElem?_eq_getElem hidx]
      have hdrop : target.drop idx = target[idx] :: target.drop (idx + 1) :=
        List.drop_eq_getElem_cons hidx
      by_cases hc : target[idx] = c
      · rw [isSubseqLoop, if_pos ⟨hidx, by rw [hget, hc]⟩]
        rw [ih (idx + 1) (by omega), hdrop, subseqB, if_pos hc.symm]
      · rw [isSubseqLoop, if_neg]
        · rw [ih idx (by omega), hdrop, subseqB, if_neg (fun hcon => hc hcon.symm)]
        · rintro ⟨_, hcon⟩
          rw [hget] at hcon
          injection hcon with hcon'
          exact hc hcon'
    · have hidx' : idx = target.length := by omega
      subst hidx'
      rw [isSubseqLoop, if_neg (by rintro ⟨hcon, _⟩; omega)]
      rw [isSubseqLoop_of_le target cs target.length (le_refl _)]
      simp [List.drop_length, subseqB]

theorem is_subsequence_iff_sublist (target text : String) :
    is_subsequence target text = true
      ↔ List.Sublist target.toList text.toList := by
  rw [is_subsequence, decide_eq_true_iff]
  rw [isSubseqLoop_eq_iff target.toList text.toList 0 (by omega)]
  rw [List.drop_zero]
  exact subseqB_iff_sublist text.toList target.toList

end TextMatch

open TextMatch in
/-- C5.  `is_subsequence` accepts exactly the order-preserving (not
necessarily contiguous) subsequences — `"abc"` matches `"xaybzc"` but not
`"acb"` — the third matching step tags its results `subsequence`, accepts a
grouped candidate exactly when the (case-normalized) target is a subsequence
of its text, and runs only when the direct and regrouped steps both produced
nothing. -/
theorem claim_C5_subsequence_matching :
    (∀ t s : String, is_subsequence t s = true ↔ List.Sublist t.toList s.toList)
    ∧ is_subsequence "abc" "xaybzc" = true
    ∧ is_subsequence "abc" "acb" = false
    ∧ (∀ all target cs m, m ∈ find_text_positions_tesseract all target cs →
        m.match_type = some "subsequence" →
        directStep all target cs = [] ∧ groupedStep all target cs = [])
    ∧ (∀ all target cs, directStep all target cs = [] →
        groupedStep all target cs = [] →
        find_text_positions_tesseract all target cs = subseqStep all target cs)
    ∧ (∀ all target cs r, r ∈ group_nearby_text all 10 50 →
        is_subsequence (searchOf target cs) (foundOf cs r) = true →
        tagMatch target "subsequence" r ∈ subseqStep all target cs)
    ∧ (∀ all target cs m, m ∈ subseqStep all target cs →
        ∃ r, r ∈ group_nearby_text all 10 50
          ∧ is_subsequence (searchOf target cs) (foundOf cs r) = true
          ∧ m = tagMatch target "subsequence" r) := by
  refine ⟨is_subsequence_iff_sublist, by rfl, by rfl, ?_, ?_, ?_, ?_⟩
  · intro all target cs m hm htag
    unfold find_text_positions_tesseract at hm
    by_cases h0 : all.isEmpty = true
    · rw [if_pos h0] at hm
      simp at hm
    · rw [if_neg h0] at hm
      by_cases h1 : (directStep all target cs).isEmpty = true
      · rw [if_neg (not_not_intro h1)] at hm
        by_cases h2 : (groupedStep all target cs).isEmpty = true
        · exact ⟨List.isEmpty_iff.mp h1, List.isEmpty_iff.mp h2⟩
        · rw [if_pos h2] at hm
          have hmt : m.match_type = some "grouped" := by
            unfold groupedStep at hm
            by_cases hp : (partialMatches all target cs).isEmpty = true
            · rw [if_pos hp] at hm
              simp at hm
            · rw [if_neg hp] at hm
              rcases List.mem_map.mp hm with ⟨r, _, rfl⟩
              rfl
          rw [hmt] at htag
          simp at htag
      · rw [if_pos h1] at hm
        have hmt : m.match_type = some "direct" := by
          rcases List.mem_map.mp hm with ⟨r, _, rfl⟩
          rfl
        rw [hmt] at htag
        simp at htag
  · intro all target cs h1 h2
    unfold find_text_positions_tesseract
    by_cases h0 : all.isEmpty = true
    · rw [if_pos h0]
      have h0' : all = [] := List.isEmpty_iff.mp h0
      subst h0'
      simp [subseqStep, group_nearby_text]
    · rw [if_neg h0]
      simp [h1, h2]
  · intro all target cs r hr hsub
    exact List.mem_map.mpr ⟨r, List.mem_filter.mpr ⟨hr, hsub⟩, rfl⟩
  · intro all target cs m hm
    rcases List.mem_map.mp hm with ⟨r, hr, rfl⟩
    rcases List.mem_filter.mp hr with ⟨hr1, hr2⟩
    exact ⟨r, hr1, hr2, rfl⟩

/-- A single OCR record whose text contains the target `abc` only as a
non-contiguous subsequence. -/
def c5Rec : TextMatch.TRec := ⟨"xaybzc", 3, 5, ⟨0, 0, 6, 10⟩, 50, none, none, none⟩

open TextMatch in
/-- C5 witness: when the direct and regrouped steps both find nothing for
target `abc` in a record reading `xaybzc`, matching falls through to the
subsequence step, and `abc` is indeed a subsequence of `xaybzc`. -/
theorem claim_C5_subsequence_matching_witness :
    find_text_positions_tesseract [c5Rec] "abc" false = subseqStep [c5Rec] "abc" false
    ∧ is_subsequence "abc" "xaybzc" = true :=
  ⟨claim_C5_subsequence_matching.2.2.2.2.1 [c5Rec] "abc" false (by rfl) (by rfl),
   claim_C5_subsequence_matching.2.1⟩

namespace OcrApi

/-- The polling loop of `EasyOCRClient.wait_for_completion`
(`ocr_api_client.py`).  `statusAt n` is the status string the n-th poll
reports; the n-th poll happens at `check_interval * n` elapsed seconds (the
`time.sleep(check_interval)` between polls; poll latency is negligible in this
model).  The loop runs `while elapsed < max_wait`, returns `true` on
`completed`, raises on `not_found`, and returns `false` when the budget is
exhausted.  Structural recursion on a fuel bound: for a positive interval the
loop iterates at most `max_wait` times, so `max_wait + 1` fuel is never
exhausted (and the fuel-out value coincides with the timeout value). -/
def waitLoop (statusAt : ℕ → String) (max_wait check_interval : ℕ) :
    ℕ → ℕ → Except String Bool
  | 0, _ => .ok false
  | fuel + 1, n =>
    if check_interval * n < max_wait then
      if statusAt n = "completed" then .ok true
      else if statusAt n = "not_found" then .error "ファイルが見つかりません"
      else waitLoop statusAt max_wait check_interval fuel (n + 1)
    else .ok false

/-- `wait_for_completion(filename, max_wait=300, check_interval=5)`. -/
def wait_for_completion (statusAt : ℕ → String) (max_wait : ℕ := 300)
    (check_interval : ℕ := 5) : Except String Bool :=
  waitLoop statusAt max_wait check_interval (max_wait + 1) 0

theorem waitLoop_timeout (statusAt : ℕ → String) :
    ∀ (fuel n : ℕ),
      (∀ j, n ≤ j → 5 * j < 300 → statusAt j ≠ "completed" ∧ statusAt j ≠ "not_found") →
      waitLoop statusAt 300 5 fuel n = .ok false := by
  intro fuel
  induction fuel with
  | zero => intro n h; rfl
  | succ f ih =>
    intro n h
    rw [waitLoop]
    by_cases hn : 5 * n < 300
    · rw [if_pos hn]
      rcases h n (le_refl n) hn with ⟨hc, hnf⟩
      rw [if_neg hc, if_neg hnf]
      exact ih (n + 1) (fun j hj hj' => h j (by omega) hj')
    · rw [if_neg hn]

theorem waitLoop_completed (statusAt : ℕ → String) :
    ∀ (fuel n k : ℕ), n ≤ k → 5 * k < 300 → k - n < fuel →
      (∀ j, n ≤ j → j < k → statusAt j ≠ "completed" ∧ statusAt j ≠ "not_found") →
      statusAt k = "completed" →
      waitLoop statusAt 300 5 fuel n = .ok true := by
  intro fuel
  induction fuel with
  | zero => intro n k _ _ h; omega
  | succ f ih =>
    intro n k hnk hk hfuel hpre hcomp
    rw [waitLoop]
    by_cases heq : n = k
    · subst heq
      rw [if_pos hk, if_pos hcomp]
    · have hlt : n < k := by omega
      have hn : 5 * n < 300 := by omega
      rcases hpre n (le_refl n) hlt with ⟨hc, hnf⟩
      rw [if_pos hn, if_neg hc, if_neg hnf]
      exact ih (n + 1) k (by omega) hk (by omega)
        (fun j hj hj' => hpre j (by omega) hj') hcomp

theorem waitLoop_not_found (statusAt : ℕ → String) :
    ∀ (fuel n k : ℕ), n ≤ k → 5 * k < 300 → k - n < fuel →
      (∀ j, n ≤ j → j < k → statusAt j ≠ "completed" ∧ statusAt j ≠ "not_found") →
      statusAt k = "not_found" →
      waitLoop statusAt 300 5 fuel n = .error "ファイルが見つかりません" := by
  intro fuel
  induction fuel with
  | zero => intro n k _ _ h; omega
  | succ f ih =>
    intro n k hnk hk hfuel hpre hnf
    rw [waitLoop]
    by_cases heq : n = k
    · subst heq
      rw [if_pos hk, if_neg (by rw [hnf]; decide), if_pos hnf]
    · have hlt : n < k := by omega
      have hn : 5 * n < 300 := by omega
      rcases hpre n (le_refl n) hlt with ⟨hc, hnf'⟩
      rw [if_pos hn, if_neg hc, if_neg hnf']
      exact ih (n + 1) k (by omega) hk (by omega)
        (fun j hj hj' => hpre j (by omega) hj') hnf

end OcrApi

open OcrApi in
/-- C6.  The completion wait (5-second polls, 300-second budget) terminates
on every status sequence: it returns success at the first poll reporting
`completed` (inside the budget, i.e. among polls 0..59), raises at the first
poll reporting `not_found`, and returns failure without raising when every
poll inside the budget reports some other status (e.g. `processing`)
forever. -/
theorem claim_C6_wait_for_completion_bounded :
    (∀ (statusAt : ℕ → String) (k : ℕ), 5 * k < 300 →
      (∀ j, j < k → statusAt j ≠ "completed" ∧ statusAt j ≠ "not_found") →
      statusAt k = "completed" →
      wait_for_completion statusAt 300 5 = .ok true)
    ∧ (∀ (statusAt : ℕ → String) (k : ℕ), 5 * k < 300 →
      (∀ j, j < k → statusAt j ≠ "completed" ∧ statusAt j ≠ "not_found") →
      statusAt k = "not_found" →
      wait_for_completion statusAt 300 5 = .error "ファイルが見つかりません")
    ∧ (∀ statusAt : ℕ → String,
      (∀ j, j ≤ 59 → statusAt j ≠ "completed" ∧ statusAt j ≠ "not_found") →
      wait_for_completion statusAt 300 5 = .ok false) := by
  refine ⟨?_, ?_, ?_⟩
  · intro statusAt k hk hpre hcomp
    exact waitLoop_completed statusAt 301 0 k (by omega) hk (by omega)
      (fun j _ hj => hpre j hj) hcomp
  · intro statusAt k hk hpre hnf
    exact waitLoop_not_found statusAt 301 0 k (by omega) hk (by omega)
      (fun j _ hj => hpre j hj) hnf
  · intro statusAt h
    exact waitLoop_timeout statusAt 301 0 (fun j _ hj => h j (by omega))

open OcrApi in
/-- C6 witness: a service completing at the third poll yields success; a
service reporting `processing` indefinitely exhausts the budget and yields
failure without raising. -/
theorem claim_C6_wait_for_completion_bounded_witness :
    wait_for_completion (fun n => if n < 2 then "processing" else "completed") 300 5
      = .ok true
    ∧ wait_for_completion (fun _ => "processing") 300 5 = .ok false :=
  ⟨claim_C6_wait_for_completion_bounded.1
      (fun n => if n < 2 then "processing" else "completed") 2 (by omega)
      (by intro j hj; simp [hj]) (by simp),
   claim_C6_wait_for_completion_bounded.2.2 (fun _ => "processing")
      (by intro j hj; simp)⟩


namespace ImageMatch

/-- An Image Match Record of `find_image_multi_scale`. -/
structure ImgMatch where
  center_x : ℤ
  center_y : ℤ
  top_left_x : ℤ
  top_left_y : ℤ
  width : ℤ
  height : ℤ
  confidence : ℚ
  scale : ℚ
deriving DecidableEq, Repr

/-- `np.linspace(a, b, n)` over exact rationals: `n` evenly spaced values
from `a` to `b` inclusive (`[a]` for `n = 1`, `[]` for `n = 0`). -/
def linspace (a b : ℚ) : ℕ → List ℚ
  | 0 => []
  | 1 => [a]
  | n + 2 =>
    (List.range (n + 2)).map
      (fun i : ℕ => a + (i : ℚ) * (b - a) / ((n : ℚ) + 1))

/-- The candidates contributed by one scale: resize the template
(`int(size * scale)`, truncation toward zero), skip it entirely when either
side is below 10 pixels, else take every correlation-map entry scoring at
least `threshold` (the oracle `rawScores new_w new_h` lists the
`cv2.matchTemplate` result entries `((pt_y, pt_x), score)` in `np.where`
iteration order). -/
def scaleMatches (rawScores : ℤ → ℤ → List ((ℕ × ℕ) × ℚ)) (threshold : ℚ)
    (w h : ℕ) (s : ℚ) : List ImgMatch :=
  let new_w := TextMatch.toIntTrunc ((w : ℚ) * s)
  let new_h := TextMatch.toIntTrunc ((h : ℚ) * s)
  if new_w < 10 ∨ new_h < 10 then []
  else
    ((rawScores new_w new_h).filter (fun e => threshold ≤ e.2)).map fun e =>
      ⟨(e.1.2 : ℤ) + new_w.fdiv 2, (e.1.1 : ℤ) + new_h.fdiv 2,
       (e.1.2 : ℤ), (e.1.1 : ℤ), new_w, new_h, e.2, s⟩

/-- The duplicate test: the candidate's center lies strictly within
`0.3 × min(candidate w/h, kept w/h)` of a kept candidate's center.  The
source compares `sqrt(dx² + dy²) < t`; over exact rationals this is
`0 ≤ t ∧ dx² + dy² < t²` (squaring is monotone on nonnegatives, and a
negative threshold admits nothing). -/
def isDupMatch (m e : ImgMatch) : Bool :=
  let dx := m.center_x - e.center_x
  let dy := m.center_y - e.center_y
  let t : ℚ := ((min (min m.width m.height) (min e.width e.height) : ℤ) : ℚ) * 0.3
  decide (0 ≤ t) && decide (((dx * dx + dy * dy : ℤ) : ℚ) < t * t)

/-- The de-duplication loop: keep a candidate only when it duplicates no
already-kept one. -/
def dedupGo (filtered : List ImgMatch) : List ImgMatch → List ImgMatch
  | [] => filtered
  | m :: rest =>
    if filtered.any (fun e => isDupMatch m e) then dedupGo filtered rest
    else dedupGo (filtered ++ [m]) rest

/-- `find_image_multi_scale(template, screenshot, threshold, scale_range,
scale_steps)`: pool the candidates of every linspace scale, sort by
descending confidence (stable), de-duplicate, return the top 10. -/
def find_image_multi_scale (rawScores : ℤ → ℤ → List ((ℕ × ℕ) × ℚ))
    (template_w template_h : ℕ) (threshold : ℚ := 0.8)
    (scale_min : ℚ := 0.5) (scale_max : ℚ := 2.0) (scale_steps : ℕ := 10) :
    List ImgMatch :=
  let all_matches := (linspace scale_min scale_max scale_steps).flatMap
    (scaleMatches rawScores threshold template_w template_h)
  let sorted := PyOps.pySorted (fun a b => decide (b.confidence ≤ a.confidence))
    all_matches
  (dedupGo [] sorted).take 10

theorem linspace_getElem (a b : ℚ) (n i : ℕ) (h2 : 2 ≤ n) (hi : i < n) :
    (linspace a b n)[i]? = some (a + i * (b - a) / ((n : ℚ) - 1)) := by
  match n, h2 with
  | k + 2, _ =>
    rw [linspace, List.getElem?_map, List.getElem?_range hi]
    simp only [Option.map_some']
    congr 2
    push_cast
    ring

theorem linspace_length (a b : ℚ) (n : ℕ) : (linspace a b n).length = n := by
  match n with
  | 0 => rfl
  | 1 => rfl
  | k + 2 => rw [linspace, List.length_map, List.length_range]

theorem dedupGo_append_sublist :
    ∀ (l acc : List ImgMatch), ∃ s, dedupGo acc l = acc ++ s ∧ s.Sublist l := by
  intro l
  induction l with
  | nil => intro acc; exact ⟨[], by simp [dedupGo]⟩
  | cons m rest ih =>
    intro acc
    rw [dedupGo]
    by_cases h : acc.any (fun e => isDupMatch m e)
    · rw [if_pos h]
      rcases ih acc with ⟨s, hs, hsub⟩
      exact ⟨s, hs, List.sublist_cons_of_sublist m hsub⟩
    · rw [if_neg h]
      rcases ih (acc ++ [m]) with ⟨s, hs, hsub⟩
      refine ⟨m :: s, by simpa using hs, List.cons_sublist_cons.mpr hsub⟩

theorem dedupGo_pairwise :
    ∀ (l acc : List ImgMatch),
      acc.Pairwise (fun e m => isDupMatch m e = false) →
      (dedupGo acc l).Pairwise (fun e m => isDupMatch m e = false) := by
  intro l
  induction l with
  | nil => intro acc h; exact h
  | cons m rest ih =>
    intro acc hacc
    rw [dedupGo]
    by_cases h : acc.any (fun e => isDupMatch m e)
    · rw [if_pos h]
      exact ih acc hacc
    · rw [if_neg h]
      apply ih
      rw [List.pairwise_append]
      refine ⟨hacc, by simp, ?_⟩
      intro e he m' hm'
      have heq := List.mem_singleton.mp hm'
      subst heq
      have hfalse := Bool.eq_false_iff.mpr h
      have := List.any_eq_false.mp hfalse e he
      simpa using this

end ImageMatch

open ImageMatch in
/-- C7.  Multi-scale template matching evaluates `scale_steps` evenly spaced
scales from `scale_range_min` to `scale_range_max` inclusive; every candidate
in the returned list comes from a resized template at least 10 pixels on each
side and scores at least `threshold`; the returned list is sorted by
descending confidence, pairwise separated by the `0.3 × min(width/height)`
overlap-distance criterion, and holds at most 10 candidates. -/
theorem claim_C7_multi_scale_matching :
    ∀ (rawScores : ℤ → ℤ → List ((ℕ × ℕ) × ℚ)) (w h : ℕ) (thr rmin rmax : ℚ)
      (steps : ℕ),
      (linspace rmin rmax steps).length = steps
      ∧ (2 ≤ steps →
          (linspace rmin rmax steps).head? = some rmin
          ∧ (linspace rmin rmax steps).getLast? = some rmax
          ∧ ∀ i, i + 1 < steps →
              (linspace rmin rmax steps).getD (i + 1) 0
                - (linspace rmin rmax steps).getD i 0
                = (rmax - rmin) / ((steps : ℚ) - 1))
      ∧ (∀ m, m ∈ find_image_multi_scale rawScores w h thr rmin rmax steps →
          10 ≤ m.width ∧ 10 ≤ m.height ∧ thr ≤ m.confidence)
      ∧ (find_image_multi_scale rawScores w h thr rmin rmax steps).Pairwise
          (fun a b => b.confidence ≤ a.confidence)
      ∧ (find_image_multi_scale rawScores w h thr rmin rmax steps).Pairwise
          (fun e m => isDupMatch m e = false)
      ∧ (find_image_multi_scale rawScores w h thr rmin rmax steps).length ≤ 10 := by
  intro rawScores w h thr rmin rmax steps
  have hlen := linspace_length rmin rmax steps
  rcases dedupGo_append_sublist
    (PyOps.pySorted (fun a b => decide (b.confidence ≤ a.confidence))
      ((linspace rmin rmax steps).flatMap (scaleMatches rawScores thr w h))) []
    with ⟨s, hs, hsl⟩
  rw [List.nil_append] at hs
  refine ⟨hlen, ?_, ?_, ?_, ?_, ?_⟩
  · intro h2
    have hne : ((steps : ℚ) - 1) ≠ 0 := by
      have hge : (2 : ℚ) ≤ (steps : ℚ) := by exact_mod_cast h2
      intro hc
      rw [sub_eq_zero] at hc
      rw [hc] at hge
      norm_num at hge
    refine ⟨?_, ?_, ?_⟩
    · have h0 := linspace_getElem rmin rmax steps 0 h2 (by omega)
      rw [List.head?_eq_getElem?, h0]
      norm_num
    · have hlast := linspace_getElem rmin rmax steps (steps - 1) h2 (by omega)
      rw [List.getLast?_eq_getElem?, hlen, hlast]
      have hc : ((steps - 1 : ℕ) : ℚ) = (steps : ℚ) - 1 := by
        have h1 : (1 : ℕ) ≤ steps := by omega
        push_cast [h1]
        ring
      rw [hc, mul_div_cancel_left₀ _ hne]
      congr 1
      ring
    · intro i hi
      have hgi := linspace_getElem rmin rmax steps i h2 (by omega)
      have hgi' := linspace_getElem rmin rmax steps (i + 1) h2 hi
      rw [List.getD_eq_getElem?_getD, List.getD_eq_getElem?_getD, hgi, hgi']
      simp only [Option.getD_some]
      push_cast
      field_simp
      ring
  · intro m hm
    have hm' : m ∈ (linspace rmin rmax steps).flatMap
        (scaleMatches rawScores thr w h) := by
      simp only [find_image_multi_scale, hs] at hm
      have h1 := (List.take_sublist 10 s).subset hm
      have h2 := hsl.subset h1
      rwa [PyOps.mem_pySorted] at h2
    rcases List.mem_flatMap.mp hm' with ⟨sc, hsc, hmem⟩
    rw [scaleMatches] at hmem
    split at hmem
    · simp at hmem
    · rename_i hdim
      push_neg at hdim
      rcases List.mem_map.mp hmem with ⟨e, he, rfl⟩
      rcases List.mem_filter.mp he with ⟨_, hthr⟩
      exact ⟨hdim.1, hdim.2, by simpa using hthr⟩
  · simp only [find_image_multi_scale, hs]
    have hsorted : (PyOps.pySorted (fun a b => decide (b.confidence ≤ a.confidence))
        ((linspace rmin rmax steps).flatMap (scaleMatches rawScores thr w h))).Pairwise
        (fun a b => (decide (b.confidence ≤ a.confidence)) = true) := by
      apply PyOps.pairwise_pySorted
      · intro x y z hxy hyz
        simp only [decide_eq_true_eq] at *
        exact le_trans hyz hxy
      · intro x y
        simp only [decide_eq_true_eq]
        exact le_total y.confidence x.confidence
    have hpw := List.Pairwise.sublist ((List.take_sublist 10 s).trans hsl) hsorted
    exact hpw.imp (fun hab => of_decide_eq_true hab)
  · simp only [find_image_multi_scale, hs]
    have hp := dedupGo_pairwise (PyOps.pySorted
      (fun a b => decide (b.confidence ≤ a.confidence))
      ((linspace rmin rmax steps).flatMap (scaleMatches rawScores thr w h))) []
      (by simp)
    rw [hs] at hp
    exact List.Pairwise.sublist (List.take_sublist 10 s) hp
  · simp only [find_image_multi_scale, hs]
    rw [List.length_take]
    omega

open ImageMatch in
/-- C7 witness: the default parameters (0.5–2.0, 10 steps) give an inclusive
scale ladder of length 10 from 0.5 to 2.0, and the result holds at most 10
candidates. -/
theorem claim_C7_multi_scale_matching_witness :
    (linspace 0.5 2.0 10).length = 10
    ∧ (linspace 0.5 2.0 10).head? = some 0.5
    ∧ (linspace 0.5 2.0 10).getLast? = some 2.0
    ∧ (find_image_multi_scale (fun _ _ => []) 20 20 0.8 0.5 2.0 10).length ≤ 10 := by
  have h := claim_C7_multi_scale_matching (fun _ _ => []) 20 20 0.8 0.5 2.0 10
  exact ⟨h.1, (h.2.1 (by omega)).1, (h.2.1 (by omega)).2.1, h.2.2.2.2.2⟩

namespace Health

/-- The JSON values of the `/health` body (`jsonify` maps Python `None` to
JSON `null`). -/
inductive HVal where
  | str (s : String)
  | bool (b : Bool)
  | null
deriving DecidableEq, Repr

/-- The OCR startup probe of `mouse_api.py` (module top level): prefer the
remote OCR API when its client imports and its server answers the liveness
probe; else fall back to Tesseract when `pytesseract` imports; else OCR is
unavailable.  Returns `(OCR_AVAILABLE, OCR_METHOD)`. -/
def ocrStartup (clientImportOk apiServerAvailable pytesseractImportOk : Bool) :
    Bool × Option String :=
  if clientImportOk then
    if apiServerAvailable then (true, some "API")
    else if pytesseractImportOk then (true, some "TESSERACT")
    else (false, none)
  else if pytesseractImportOk then (true, some "TESSERACT")
  else (false, none)

/-- The process-wide capability flags the `/health` route reads. -/
structure ServerFlags where
  gui_available : Bool
  ocr_available : Bool
  ocr_method : Option String
  opencv_available : Bool
  clipboard_available : Bool
deriving DecidableEq, Repr

/-- `GET /health` (`mouse_api.py` `health_check`): the literal body,
field for field; `ocr_method` carries `OCR_METHOD if OCR_AVAILABLE else
None`, which `jsonify` serializes as a present key holding `null`. -/
def health_check (f : ServerFlags) : List (String × HVal) :=
  [("status", .str "healthy"),
   ("service", .str "mouse-api"),
   ("gui_available", .bool f.gui_available),
   ("ocr_available", .bool f.ocr_available),
   ("ocr_method",
     if f.ocr_available then
       match f.ocr_method with
       | some m => .str m
       | none => .null
     else .null),
   ("opencv_available", .bool f.opencv_available),
   ("clipboard_available", .bool f.clipboard_available)]

end Health

open Health in
/-- C8 (amended).  The `/health` body always carries the `ocr_method` key:
its value is JSON `null` (not an absent key) when OCR capability is
unavailable, and one of the two method tags `"API"` / `"TESSERACT"` when OCR
is available, for every combination of startup probe outcomes. -/
theorem claim_C8_health_ocr_method :
    ∀ (gui opencv clip clientOk apiOk tessOk : Bool),
      (health_check ⟨gui, (ocrStartup clientOk apiOk tessOk).1,
          (ocrStartup clientOk apiOk tessOk).2, opencv, clip⟩).lookup "ocr_method"
        ≠ none
      ∧ ((ocrStartup clientOk apiOk tessOk).1 = false →
          (health_check ⟨gui, (ocrStartup clientOk apiOk tessOk).1,
            (ocrStartup clientOk apiOk tessOk).2, opencv, clip⟩).lookup "ocr_method"
          = some .null)
      ∧ ((ocrStartup clientOk apiOk tessOk).1 = true →
          (health_check ⟨gui, (ocrStartup clientOk apiOk tessOk).1,
            (ocrStartup clientOk apiOk tessOk).2, opencv, clip⟩).lookup "ocr_method"
            = some (.str "API")
          ∨ (health_check ⟨gui, (ocrStartup clientOk apiOk tessOk).1,
            (ocrStartup clientOk apiOk tessOk).2, opencv, clip⟩).lookup "ocr_method"
            = some (.str "TESSERACT")) := by
  decide

open Health in
/-- C8 counterexample.  With no OCR backend available at startup, the claim
says `ocr_method` is absent from the `/health` body; the code serializes a
present key holding `null` (`'ocr_method': OCR_METHOD if OCR_AVAILABLE else
None` under `jsonify`). -/
theorem claim_C8_health_ocr_method_counterexample :
    (health_check ⟨false, (ocrStartup false false false).1,
        (ocrStartup false false false).2, false, false⟩).lookup "ocr_method"
      = some HVal.null := by decide

open Health in
/-- C8 witness: the amended behavior at two concrete startups — OCR fully
unavailable (null value), and the remote API reachable (tag `API`). -/
theorem claim_C8_health_ocr_method_witness :
    (health_check ⟨false, (ocrStartup false false false).1,
        (ocrStartup false false false).2, false, false⟩).lookup "ocr_method"
      = some HVal.null
    ∧ ((health_check ⟨true, (ocrStartup true true false).1,
        (ocrStartup true true false).2, true, true⟩).lookup "ocr_method"
        = some (HVal.str "API")
      ∨ (health_check ⟨true, (ocrStartup true true false).1,
        (ocrStartup true true false).2, true, true⟩).lookup "ocr_method"
        = some (HVal.str "TESSERACT")) :=
  ⟨(claim_C8_health_ocr_method false false false false false false).2.1 rfl,
   (claim_C8_health_ocr_method true true true true true false).2.2 rfl⟩

namespace McpSaver

open MouseClient (JVal dictSet)

/-- The collision-suffixed candidate `f"{prefix}_{i}.png"`. -/
def cand (pfx : String) (i : ℕ) : String := pfx ++ "_" ++ toString i ++ ".png"

/-- The `while final_path.exists()` loop of `_save_base64_image_to_png`:
try `prefix_i.png` for i = 1, 2, … until a name is free.  Structural
recursion on a fuel bound; `existing.length + 1` candidates cannot all be
taken when any candidate in that range is free (see the spec lemma). -/
def uniqueAux (existing : List String) (pfx : String) : ℕ → ℕ → String
  | 0, i => cand pfx i
  | fuel + 1, i =>
    if existing.contains (cand pfx i) then uniqueAux existing pfx fuel (i + 1)
    else cand pfx i

/-- The unique-name choice of `_save_base64_image_to_png`: `prefix.png` when
free, else the first free `prefix_i.png` for i = 1, 2, …. -/
def uniquePngName (existing : List String) (pfx : String) : String :=
  if existing.contains (pfx ++ ".png") then
    uniqueAux existing pfx (existing.length + 1) 1
  else pfx ++ ".png"

/-- `_save_base64_image_to_png` on the directory state: pick the unique
name, save (the directory gains the file), return the saved path and the new
state. -/
def save_base64_image_to_png (outputDir : String) (existing : List String)
    (pfx : String) : String × List String :=
  let name := uniquePngName existing pfx
  (outputDir ++ "/" ++ name, existing ++ [name])

/-- `_with_saved_image`: when the response carries a base64 `image` string,
save it (decode modelled by the `decodeOk` oracle); on success drop `image`
and set `image_file` (the absolute path) and `image_format:"PNG"`; on decode
failure keep the response and add `image_decode_error`. -/
def with_saved_image (decodeOk : Bool) (outputDir : String)
    (existing : List String) (resp : List (String × JVal)) (pfx : String) :
    List (String × JVal) × List String :=
  match resp.lookup "image" with
  | some (.str _) =>
    if decodeOk then
      let saved := save_base64_image_to_png outputDir existing pfx
      (dictSet (dictSet (resp.filter (fun p => p.1 ≠ "image"))
          "image_file" (.str saved.1))
        "image_format" (.str "PNG"),
       saved.2)
    else (dictSet resp "image_decode_error" (.str "decode failed"), existing)
  | _ => (resp, existing)

theorem lookup_cons_self (k : String) (v₀ : JVal) (es : List (String × JVal)) :
    ((k, v₀) :: es).lookup k = some v₀ := by
  simp [List.lookup]

theorem lookup_cons_ne (k k₀ : String) (v₀ : JVal) (es : List (String × JVal))
    (h : k ≠ k₀) : ((k₀, v₀) :: es).lookup k = es.lookup k := by
  simp [List.lookup, beq_false_of_ne h]

theorem lookup_dictSet_self (d : List (String × JVal)) (k : String) (v : JVal) :
    (dictSet d k v).lookup k = some v := by
  unfold MouseClient.dictSet
  by_cases h : d.any (fun p => p.1 = k) = true
  · rw [if_pos h]
    induction d with
    | nil => simp at h
    | cons p ps ih =>
      obtain ⟨k₀, v₀⟩ := p
      by_cases hp : k₀ = k
      · rw [List.map_cons, if_pos hp]
        exact lookup_cons_self k v _
      · rw [List.map_cons, if_neg (by simpa using hp)]
        have h' : ps.any (fun p => p.1 = k) = true := by
          rcases List.any_eq_true.mp h with ⟨x, hx, hpx⟩
          cases List.mem_cons.mp hx with
          | inl heq => subst heq; exact absurd (by simpa using hpx) hp
          | inr hmem => exact List.any_eq_true.mpr ⟨x, hmem, hpx⟩
        rw [lookup_cons_ne k k₀ v₀ _ (fun hc => hp hc.symm)]
        exact ih h'
  · rw [if_neg h]
    have hall := List.any_eq_false.mp (Bool.eq_false_iff.mpr h)
    clear h
    induction d with
    | nil => exact lookup_cons_self k v []
    | cons p ps ih =>
      obtain ⟨k₀, v₀⟩ := p
      have hk₀ : ¬ k₀ = k := by
        have := hall (k₀, v₀) (List.mem_cons_self _ _)
        simpa using this
      rw [List.cons_append, lookup_cons_ne k k₀ v₀ _ (fun hc => hk₀ hc.symm)]
      exact ih (fun x hx => hall x (List.mem_cons_of_mem _ hx))

theorem lookup_dictSet_ne (d : List (String × JVal)) (k k' : String) (v : JVal)
    (hne : k ≠ k') : (dictSet d k' v).lookup k = d.lookup k := by
  unfold MouseClient.dictSet
  by_cases h : d.any (fun p => p.1 = k') = true
  · rw [if_pos h]
    clear h
    induction d with
    | nil => rfl
    | cons p ps ih =>
      obtain ⟨k₀, v₀⟩ := p
      by_cases hp : k₀ = k'
      · subst hp
        rw [List.map_cons, if_pos rfl]
        rw [lookup_cons_ne k k₀ v _ hne, lookup_cons_ne k k₀ v₀ _ hne]
        exact ih
      · rw [List.map_cons, if_neg (by simpa using hp)]
        by_cases hk₀ : k = k₀
        · subst hk₀
          rw [lookup_cons_self, lookup_cons_self]
        · rw [lookup_cons_ne k k₀ v₀ _ hk₀, lookup_cons_ne k k₀ v₀ _ hk₀]
          exact ih
  · rw [if_neg h]
    induction d with
    | nil => simp [List.lookup, beq_false_of_ne hne]
    | cons p ps ih =>
      obtain ⟨k₀, v₀⟩ := p
      by_cases hk₀ : k = k₀
      · subst hk₀
        rw [List.cons_append, lookup_cons_self, lookup_cons_self]
      · rw [List.cons_append, lookup_cons_ne k k₀ v₀ _ hk₀,
          lookup_cons_ne k k₀ v₀ _ hk₀]
        exact ih (by intro hc; exact h (by simp [List.any_cons, hc]))

theorem lookup_filter_self (d : List (String × JVal)) (k : String) :
    (d.filter (fun p => p.1 ≠ k)).lookup k = none := by
  induction d with
  | nil => rfl
  | cons p ps ih =>
    obtain ⟨k₀, v₀⟩ := p
    by_cases hp : k₀ = k
    · rw [List.filter_cons, if_neg (by simpa using hp)]
      exact ih
    · rw [List.filter_cons, if_pos (by simpa using hp)]
      rw [lookup_cons_ne k k₀ v₀ _ (fun hc => hp hc.symm)]
      exact ih

/-- The collision loop always lands on `prefix_(i+j).png` where every earlier
candidate from index `i` was taken; when the landing name is still taken, the
fuel bound was exhausted. -/
theorem uniqueAux_spec (existing : List String) (pfx : String) :
    ∀ (fuel i : ℕ), ∃ j,
      uniqueAux existing pfx fuel i = cand pfx (i + j)
      ∧ (∀ j', j' < j → existing.contains (cand pfx (i + j')) = true)
      ∧ (existing.contains (cand pfx (i + j)) = true → j = fuel) := by
  intro fuel
  induction fuel with
  | zero =>
    intro i
    exact ⟨0, by rw [uniqueAux, Nat.add_zero], by omega, fun _ => rfl⟩
  | succ f ih =>
    intro i
    rw [uniqueAux]
    by_cases h : existing.contains (cand pfx i) = true
    · rw [if_pos h]
      rcases ih (i + 1) with ⟨j, hj, hall, hfull⟩
      refine ⟨j + 1, by rw [hj]; congr 1; omega, ?_, ?_⟩
      · intro j' hj'
        cases j' with
        | zero => simpa using h
        | succ j'' =>
          have := hall j'' (by omega)
          rw [show i + (j'' + 1) = i + 1 + j'' by omega]
          exact this
      · intro hc
        rw [show i + (j + 1) = i + 1 + j by omega] at hc
        rw [hfull hc]
    · rw [if_neg h]
      exact ⟨0, by rw [Nat.add_zero], by omega,
        fun hc => absurd hc (by simpa using h)⟩

end McpSaver

open McpSaver MouseClient in
/-- C9.  Saving a decoded screenshot uses `prefix.png` when free, else the
first free `prefix_1.png`, `prefix_2.png`, …: two consecutive saves with
prefix `screen_capture` into an empty output directory produce
`screen_capture.png` and then `screen_capture_1.png`; whenever some candidate
within the fuel range is free the chosen name collides with nothing; and a
response carrying a base64 `image` has that field removed and replaced by
`image_file` (the absolute saved path) and `image_format:"PNG"`. -/
theorem claim_C9_save_image_naming :
    (save_base64_image_to_png "/srv/output" [] "screen_capture"
        = ("/srv/output/screen_capture.png", ["screen_capture.png"])
      ∧ save_base64_image_to_png "/srv/output" ["screen_capture.png"]
            "screen_capture"
        = ("/srv/output/screen_capture_1.png",
           ["screen_capture.png", "screen_capture_1.png"]))
    ∧ (∀ existing pfx, existing.contains (pfx ++ ".png") = false →
        uniquePngName existing pfx = pfx ++ ".png")
    ∧ (∀ existing pfx, existing.contains (pfx ++ ".png") = true →
        ∃ j, uniquePngName existing pfx = cand pfx (1 + j)
          ∧ ∀ j', j' < j → existing.contains (cand pfx (1 + j')) = true)
    ∧ (∀ (existing : List String) (pfx : String) (j : ℕ),
        j < existing.length + 1 →
        existing.contains (cand pfx (1 + j)) = false →
        existing.contains (uniquePngName existing pfx) = false)
    ∧ (∀ (resp : List (String × JVal)) (s dir pfx : String)
        (existing : List String),
        resp.lookup "image" = some (.str s) →
        (with_saved_image true dir existing resp pfx).1.lookup "image" = none
        ∧ (with_saved_image true dir existing resp pfx).1.lookup "image_file"
            = some (.str (dir ++ "/" ++ uniquePngName existing pfx))
        ∧ (with_saved_image true dir existing resp pfx).1.lookup "image_format"
            = some (.str "PNG")
        ∧ (with_saved_image true dir existing resp pfx).2
            = existing ++ [uniquePngName existing pfx]) := by
  refine ⟨⟨by rfl, by rfl⟩, ?_, ?_, ?_, ?_⟩
  · intro existing pfx h
    rw [uniquePngName, if_neg (by rw [h]; simp)]
  · intro existing pfx h
    rw [uniquePngName, if_pos h]
    rcases uniqueAux_spec existing pfx (existing.length + 1) 1 with ⟨j, hj, hall, _⟩
    exact ⟨j, hj, hall⟩
  · intro existing pfx j hjlt hfree
    rw [uniquePngName]
    by_cases h : existing.contains (pfx ++ ".png") = true
    · rw [if_pos h]
      rcases uniqueAux_spec existing pfx (existing.length + 1) 1
        with ⟨j₀, hj₀, hall, hfull⟩
      rw [hj₀]
      by_cases hc : existing.contains (cand pfx (1 + j₀)) = true
      · have hj₀full := hfull hc
        have := hall j (by omega)
        rw [this] at hfree
        simp at hfree
      · simpa using hc
    · rw [if_neg h]
      simpa using h
  · intro resp s dir pfx existing himg
    rw [with_saved_image, himg]
    rw [if_pos rfl]
    refine ⟨?_, ?_, ?_, rfl⟩
    · rw [lookup_dictSet_ne _ _ _ _ (by decide),
        lookup_dictSet_ne _ _ _ _ (by decide), lookup_filter_self]
    · rw [lookup_dictSet_ne _ _ _ _ (by decide), lookup_dictSet_self]
      rfl
    · rw [lookup_dictSet_self]

open McpSaver MouseClient in
/-- C9 witness: the two-save exemplar plus the response rewriting on a
concrete backend response. -/
theorem claim_C9_save_image_naming_witness :
    save_base64_image_to_png "/srv/output" [] "screen_capture"
      = ("/srv/output/screen_capture.png", ["screen_capture.png"])
    ∧ uniquePngName ["other.png"] "screen_capture" = "screen_capture.png"
    ∧ ((with_saved_image true "/srv/output" [] [("status", .str "success"),
          ("image", .str "aGVsbG8=")] "screen_capture").1.lookup "image_file"
        = some (.str ("/srv/output/" ++ uniquePngName [] "screen_capture"))) :=
  ⟨claim_C9_save_image_naming.1.1,
   claim_C9_save_image_naming.2.1 ["other.png"] "screen_capture" (by decide),
   (claim_C9_save_image_naming.2.2.2.2
      [("status", .str "success"), ("image", .str "aGVsbG8=")]
      "aGVsbG8=" "/srv/output" "screen_capture" [] (by rfl)).2.1⟩

namespace TypeText

open MouseClient (JVal)

/-- The parsed `/text/type` request body with the source's defaults
(`data.get(...)` calls); `text` is the required field. -/
structure TypeReq where
  text : String
  x : Option ℤ := none
  y : Option ℤ := none
  interval : ℚ := 0.1
  mode : String := "type"
  paste_delay : ℚ := 0.1
  preserve_clipboard : Bool := true
  press_enter : Bool := false
  enter_count : ℤ := 1
  enter_interval : ℚ := 0.05

/-- The fault model of the route's external effects: `readFails` /
`writeFails` — `pyperclip.paste()` / `pyperclip.copy()` raise (uniformly per
session: the clipboard backend either works or is absent, e.g. missing
xclip); `hotkeyRaises` — the paste shortcut raises; `isDarwin` — the
platform check.  A raising operation leaves the clipboard unchanged. -/
structure ClipEnv where
  readFails : Bool
  writeFails : Bool
  hotkeyRaises : Bool
  isDarwin : Bool

/-- The observable side effects of one request. -/
inductive Event where
  | click (x y : ℤ)
  | typewrite (text : String) (interval : ℚ)
  | sleep (secs : ℚ)
  | hotkey (modKey key : String)
  | pressEnter
deriving DecidableEq, Repr

/-- The route's outcome: HTTP status, JSON body, the clipboard state when
the route returns, and the emitted input events. -/
structure TTOut where
  status : ℕ
  body : List (String × JVal)
  clipboard : String
  events : List Event

/-- The optional leading click (`if x is not None and y is not None`). -/
def clickEvents (req : TypeReq) : List Event :=
  match req.x, req.y with
  | some x, some y => [.click x y]
  | _, _ => []

/-- The optional Enter presses after input: an initial
`sleep(max(0, enter_interval))`, then `max(1, enter_count)` presses each
followed by a sleep when the interval is positive. -/
def enterTrace (req : TypeReq) : List Event :=
  if req.press_enter then
    [.sleep (max 0 req.enter_interval)]
      ++ (List.replicate (max 1 req.enter_count).toNat
          (if 0 < req.enter_interval then [Event.pressEnter, Event.sleep req.enter_interval]
           else [Event.pressEnter])).flatten
  else []

/-- The `pressed_enter` / `enter_count` fields of the success body. -/
def enterKeys (req : TypeReq) : List (String × JVal) :=
  if req.press_enter then
    [("pressed_enter", .bool true), ("enter_count", .int (max 1 req.enter_count))]
  else [("pressed_enter", .bool false), ("enter_count", .int 0)]

/-- The `/text/type` route (`mouse_api.py` `type_text`).  In `"paste"` mode:
save the clipboard when `preserve_clipboard` (a failing read just clears the
saved flag), write the text to the clipboard — a failure here returns the
distinct 503 `Clipboard copy failed` error — wait, send the platform paste
shortcut, and in a `finally` restore the saved clipboard on every exit path
(the restore's own failure is suppressed; under the uniform fault model a
failed text-write implies the clipboard was never overwritten).  A raising
paste shortcut propagates to the route's outer handler (500) after the
`finally` restore.  In `"type"` mode: synthesize keystrokes.  Then the
optional Enter presses. -/
def type_text (gui clipAvail : Bool) (env : ClipEnv) (req : TypeReq)
    (clip : String) : TTOut :=
  if ¬ gui then
    ⟨503, [("error", .str "GUI functionality not available"),
           ("status", .str "error")], clip, []⟩
  else
    let ev₀ := clickEvents req
    if req.mode = "paste" then
      if ¬ clipAvail then
        ⟨503, [("error", .str "Clipboard functionality not available"),
               ("status", .str "error")], clip, ev₀⟩
      else
        let original_ok := req.preserve_clipboard && !env.readFails
        let original_clip : Option String :=
          if req.preserve_clipboard && !env.readFails then some clip else none
        if env.writeFails then
          ⟨503, [("error", .str "Clipboard copy failed"),
                 ("details", .str "copy raised"),
                 ("status", .str "error"),
                 ("hint", .str "Linuxでは xclip または xsel の導入が必要です")],
           clip, ev₀⟩
        else
          let clip₁ := req.text
          let ev₁ := ev₀ ++ [.sleep req.paste_delay]
          let restored := if original_ok then original_clip.getD "" else clip₁
          if env.hotkeyRaises then
            ⟨500, [("error", .str "hotkey raised"), ("status", .str "error")],
             restored, ev₁⟩
          else
            ⟨200, [("status", .str "success"), ("text", .str req.text),
                   ("mode", .str "paste")] ++ enterKeys req,
             restored,
             ev₁ ++ [.hotkey (if env.isDarwin then "command" else "ctrl") "v"]
               ++ enterTrace req⟩
    else
      ⟨200, [("status", .str "success"), ("text", .str req.text),
             ("mode", .str "type")] ++ enterKeys req,
       clip,
       ev₀ ++ [.typewrite req.text req.interval] ++ enterTrace req⟩

end TypeText

open TypeText in
/-- C10.  For every paste-mode request with `preserve_clipboard` whose
initial clipboard read succeeds, the route leaves the clipboard in its
pre-request state on every exit path: on clipboard-write failure (reported as
the distinct 503 `Clipboard copy failed` error), on a raising paste shortcut
(a 500 error after the `finally` restore), and on success. -/
theorem claim_C10_paste_preserves_clipboard :
    ∀ (env : ClipEnv) (req : TypeReq) (clip : String),
      req.mode = "paste" →
      req.preserve_clipboard = true →
      env.readFails = false →
      (type_text true true env req clip).clipboard = clip
      ∧ (env.writeFails = true →
          (type_text true true env req clip).status = 503
          ∧ (type_text true true env req clip).body.lookup "error"
              = some (.str "Clipboard copy failed"))
      ∧ (env.writeFails = false → env.hotkeyRaises = true →
          (type_text true true env req clip).status = 500)
      ∧ (env.writeFails = false → env.hotkeyRaises = false →
          (type_text true true env req clip).status = 200) := by
  intro env req clip hmode hpres hread
  have hbody : type_text true true env req clip =
      (if env.writeFails then
        ⟨503, [("error", .str "Clipboard copy failed"),
               ("details", .str "copy raised"),
               ("status", .str "error"),
               ("hint", .str "Linuxでは xclip または xsel の導入が必要です")],
         clip, clickEvents req⟩
      else if env.hotkeyRaises then
        ⟨500, [("error", .str "hotkey raised"), ("status", .str "error")],
         clip, clickEvents req ++ [.sleep req.paste_delay]⟩
      else
        ⟨200, [("status", .str "success"), ("text", .str req.text),
               ("mode", .str "paste")] ++ enterKeys req,
         clip,
         clickEvents req ++ [.sleep req.paste_delay]
           ++ [.hotkey (if env.isDarwin then "command" else "ctrl") "v"]
           ++ enterTrace req⟩) := by
    rw [type_text]
    simp only [hmode, hpres, hread, Bool.not_false, Bool.and_true,
      not_true, if_false, if_true, Bool.true_and]
    by_cases hw : env.writeFails
    · simp [hw]
    · by_cases hh : env.hotkeyRaises
      · simp [hw, hh]
      · simp [hw, hh]
  rw [hbody]
  by_cases hw : env.writeFails
  · simp [hw, McpSaver.lookup_cons_self]
  · by_cases hh : env.hotkeyRaises
    · simp [hw, hh]
    · simp [hw, hh]

open TypeText in
/-- C10 witness: a concrete paste request against a clipboard holding
`before` — with a failing write the route returns the distinct 503 error and
the clipboard still holds `before`; with a raising paste shortcut the route
returns 500 and the clipboard is restored to `before`. -/
theorem claim_C10_paste_preserves_clipboard_witness :
    (type_text true true ⟨false, true, false, false⟩
        { text := "hello", mode := "paste" } "before").clipboard = "before"
    ∧ (type_text true true ⟨false, true, false, false⟩
        { text := "hello", mode := "paste" } "before").status = 503
    ∧ (type_text true true ⟨false, false, true, false⟩
        { text := "hello", mode := "paste" } "before").clipboard = "before"
    ∧ (type_text true true ⟨false, false, true, false⟩
        { text := "hello", mode := "paste" } "before").status = 500 :=
  ⟨(claim_C10_paste_preserves_clipboard ⟨false, true, false, false⟩
      { text := "hello", mode := "paste" } "before" rfl rfl rfl).1,
   ((claim_C10_paste_preserves_clipboard ⟨false, true, false, false⟩
      { text := "hello", mode := "paste" } "before" rfl rfl rfl).2.1 rfl).1,
   (claim_C10_paste_preserves_clipboard ⟨false, false, true, false⟩
      { text := "hello", mode := "paste" } "before" rfl rfl rfl).1,
   (claim_C10_paste_preserves_clipboard ⟨false, false, true, false⟩
      { text := "hello", mode := "paste" } "before" rfl rfl rfl).2.2.1 rfl rfl⟩
